import Mathlib

/-!
Verification development for the delphin.mrs.xmrs module: a shallow
embedding of the Xmrs graph class and its constructors (Mrs, Rmrs, Dmrs)
together with proofs about construction, equality, validation, head
selection and lookup behaviour.

Python dictionaries are modelled as insertion-ordered association lists,
Python None as Option.none, and raising as an Except error value.
-/

/-- AssocList lookup: first binding wins, mirroring unique-key Python dicts. -/
def alookup {α β : Type} [DecidableEq α] : List (α × β) → α → Option β
  | [], _ => none
  | (k, v) :: rest, a => if k = a then some v else alookup rest a

/-- Membership of a key in an association list (the Python "in dict" test). -/
def amem {α β : Type} [DecidableEq α] (l : List (α × β)) (a : α) : Bool :=
  l.any (fun p => p.1 = a)

/-- Update the binding of an existing key in place, preserving insertion
order; if the key is absent, append a new binding (Python dict assignment). -/
def aset {α β : Type} [DecidableEq α] : List (α × β) → α → β → List (α × β)
  | [], a, b => [(a, b)]
  | (k, v) :: rest, a, b =>
      if k = a then (k, b) :: rest else (k, v) :: aset rest a b

/-- Modify the value of a key through a function, with a default value used
to vivify the entry when the key is absent (Python defaultdict access). -/
def aupd {α β : Type} [DecidableEq α] (l : List (α × β)) (a : α) (d : β)
    (f : β → β) : List (α × β) :=
  match alookup l a with
  | some v => aset l a (f v)
  | none => l ++ [(a, f d)]

/-- Keys of an association list in insertion order. -/
def akeys {α β : Type} (l : List (α × β)) : List α := l.map (·.1)

/-- Decidable equality for Except values, used to evaluate embedded
operations at concrete inputs. -/
instance {ε α : Type} [DecidableEq ε] [DecidableEq α] :
    DecidableEq (Except ε α) := fun a b =>
  match a, b with
  | .ok a1, .ok b1 =>
      if h : a1 = b1 then isTrue (by rw [h]) else isFalse (by simp [h])
  | .error a1, .error b1 =>
      if h : a1 = b1 then isTrue (by rw [h]) else isFalse (by simp [h])
  | .ok _, .error _ => isFalse (by simp)
  | .error _, .ok _ => isFalse (by simp)

/-- Python errors that the embedded code can raise. -/
inductive PyErr : Type
  | keyError : String → PyErr
  | attributeError : String → PyErr
  | xmrsError : String → PyErr
  | xmrsStructureError : String → PyErr
  deriving DecidableEq, Repr

/-- Python prints None as the word None and an int in decimal; used when an
error message interpolates a possibly-missing node id. -/
def showNodeid : Option Int → String
  | none => "None"
  | some i => toString i

/- Constants from delphin.mrs.config.  That module is not under src/; the
values below are modelled from the spec (section 4.6 names the reserved top
node id 0 and the closed post-tag set, section 4.4 names the default start
constant FIRST_NODEID) and from the doctest examples inside
delphin/mrs/xmrs.py itself, which use node id 10000, variables h0/h1/e2,
the role ARG0 and the link post H. -/

/-- Modelled from the spec: reserved top node id (section 4.6). -/
def LTOP_NODEID : Int := 0

/-- Modelled from the spec: default start constant for assigned node ids
(section 4.4); the module doctests start explicit node ids at 10000. -/
def FIRST_NODEID : Int := 10000

/-- Modelled from the spec: the intrinsic-variable role name, ARG0 in the
module doctests. -/
def IVARG_ROLE : String := "ARG0"

/-- Modelled from the spec: the constant-argument role name. -/
def CONSTARG_ROLE : String := "CARG"

/-- Modelled from the spec: the restriction role linking a quantifier to its
restriction (section 4.6 step 3). -/
def RSTR_ROLE : String := "RSTR"

/-- Modelled from the spec: the handle sort prefix, h in the doctests. -/
def HANDLESORT : String := "h"

/-- Modelled from the spec: the sort used when a DMRS node declares none. -/
def UNKNOWNSORT : String := "u"

/-- Modelled from the spec: the key holding a DMRS node sort. -/
def CVARSORT : String := "cvarsort"

/-- Modelled from the spec: DMRS link post tag for label equality. -/
def EQ_POST : String := "EQ"

/-- Modelled from the spec: DMRS link post tag for a qeq-hole argument. -/
def H_POST : String := "H"

/-- Modelled from the spec: DMRS link post tag for a direct label argument. -/
def HEQ_POST : String := "HEQ"

/-- Modelled from the spec: DMRS link post tag carrying no structure. -/
def NIL_POST : String := "NIL"

/-- Split a character list at every occurrence of a separator character. -/
def splitChar (c : Char) : List Char → List (List Char)
  | [] => [[]]
  | a :: rest =>
      let r := splitChar c rest
      if a = c then [] :: r
      else match r with
        | [] => [[a]]
        | h :: t => (a :: h) :: t

/-- Modelled from the spec: the variable naming pattern (a token of word
characters whose last character is not a digit, followed by a nonempty
digit serial); delphin.mrs.components.var_re is not under src/, and the
Xmrs docstring describes the form as a sequence of non-integers followed
by a sequence of integers. -/
def isVarStr (s : String) : Bool :=
  let rev := s.data.reverse
  let serial := rev.takeWhile Char.isDigit
  let sortPart := (rev.dropWhile Char.isDigit).reverse
  serial ≠ [] && sortPart ≠ [] &&
    sortPart.all (fun c => c.isAlphanum || c = '-' || c = '_')

/-- Modelled from the spec: the sort prefix of a variable token (the part
before the trailing digit serial); delphin.mrs.components.var_sort is not
under src/. -/
def var_sort (v : String) : String :=
  String.mk ((v.data.reverse.dropWhile Char.isDigit).reverse)

/-- Modelled from the spec: predicates are carried as opaque tokens (the
export shape in section 6 stores a predicate as one token and import is the
structural inverse); delphin.mrs.components.Pred is not under src/.  A
predicate token is a quantifier when its part-of-speech field is q, which
for the underscore-separated token shape means an underscore field q. -/
def predIsQuantifier (p : String) : Bool :=
  (splitChar '_' p.data).contains ['q']

/-- Modelled from the spec: Pred.short_form on an opaque token; with
predicates carried as opaque tokens both short_form and
string_or_grammar_pred are the identity on the token. -/
def predShortForm (p : String) : String := p

/-- A value stored in a variable property list.  Properties connected to a
variable are (property, value) string pairs, but Mrs.from_dict rebuilds the
table from a nested dictionary, so a property value can itself be a list of
bindings; this sum captures both shapes. -/
inductive PropV : Type
  | s : String → PropV
  | pl : List (String × PropV) → PropV

/-- An ElementaryPredication record: (nodeid, pred, label, args, lnk,
surface, base).  The class itself lives in delphin.mrs.components (not under
src/); this record shape is the one named by the add_eps comment in
delphin/mrs/xmrs.py and by section 6 of the spec.  A Lnk is carried as a
charspan pair, the only Lnk form the module builds (Lnk.charspan in
Mrs.from_dict and Dmrs.from_dict). -/
structure EP : Type where
  nodeid : Option Int
  pred : String
  label : Option String
  args : List (String × String)
  lnk : Option (Int × Int)
  surface : Option String
  base : Option String
  deriving DecidableEq, Repr

/-- One entry of the Xmrs variable table: property list, a chronological
log of (role, nodeid) references, the HCONS back-references and the ICONS
back-references.  Python groups refs in a per-role defaultdict; the flat
log preserves both the per-role sequences and the total multiset, which is
all the module ever reads from it. -/
structure VarEntry : Type where
  props : List (String × PropV)
  refs : List (String × Option Int)
  hcrefs : List (Option Int × String × String)
  icrefs : List (String × String × String)

/-- Fresh variable-table entry (the defaultdict default). -/
def VarEntry.empty : VarEntry := ⟨[], [], [], []⟩

/-- The Xmrs graph state: top/index/xarg, the ordered node id list, the EP
table keyed by node id, the HCONS table keyed by high handle, the ICONS
table keyed by left variable, the variable table, and surface metadata. -/
structure Xmrs : Type where
  top : Option String
  index : Option String
  xarg : Option String
  nodeids : List (Option Int)
  eps : List (Option Int × EP)
  hcons : List (String × String × String)
  icons : List (String × List (String × String × String))
  vars : List (String × VarEntry)
  lnk : Option (Int × Int)
  surface : Option String
  identifier : Option String

/-- The empty graph state Xmrs.__init__ starts from. -/
def Xmrs.empty : Xmrs := ⟨none, none, none, [], [], [], [], [], none, none, none⟩

/-- Vivify a variable-table entry (a bare defaultdict access). -/
def Xmrs.varEnsure (x : Xmrs) (v : String) : Xmrs :=
  { x with vars := aupd x.vars v VarEntry.empty id }

/-- Append a (role, nodeid) reference under a variable, vivifying it. -/
def Xmrs.addRef (x : Xmrs) (v : String) (role : String) (nid : Option Int) :
    Xmrs :=
  let f := fun (e : VarEntry) => { e with refs := e.refs ++ [(role, nid)] }
  { x with vars := aupd x.vars v VarEntry.empty f }

/-- Set the property list of a variable, vivifying it (the vars loop of
Xmrs.__init__; a dict argument and a pair-list argument carry the same
bindings once dicts are association lists, so the hasattr items branch is
the identity here). -/
def Xmrs.setProps (x : Xmrs) (v : String) (props : List (String × PropV)) :
    Xmrs :=
  let f := fun (e : VarEntry) => { e with props := props }
  { x with vars := aupd x.vars v VarEntry.empty f }

/-- Message of the duplicate-EP construction error. -/
def dupEpMsg (nid : Option Int) (pred : String) : String :=
  "EP already exists in Xmrs: " ++ showNodeid nid ++ " (" ++ pred ++ ")"

/-- Xmrs.add_eps for one EP: reject a duplicate node id, append to the
ordered id list and the EP table, register the label under the reserved LBL
role, and register each argument value that is already a known variable or
matches the variable pattern. -/
def Xmrs.addEp1 (x : Xmrs) (ep : EP) : Except PyErr Xmrs :=
  if amem x.eps ep.nodeid then
    .error (.xmrsError (dupEpMsg ep.nodeid ep.pred))
  else
    let x1 := { x with nodeids := x.nodeids ++ [ep.nodeid],
                       eps := x.eps ++ [(ep.nodeid, ep)] }
    let x2 := match ep.label with
      | none => x1
      | some lbl => x1.addRef lbl "LBL" ep.nodeid
    .ok (ep.args.foldl
      (fun acc rv =>
        if amem acc.vars rv.2 || isVarStr rv.2 then
          acc.addRef rv.2 rv.1 ep.nodeid
        else acc)
      x2)

/-- Xmrs.add_eps over a sequence (the Invalid EP data coercion branch
cannot fire here because inputs are already EP records); the first
duplicate aborts the loop with its error. -/
def Xmrs.add_eps (x : Xmrs) : List EP → Except PyErr Xmrs
  | [] => .ok x
  | ep :: rest =>
      match x.addEp1 ep with
      | .error e => .error e
      | .ok x1 => x1.add_eps rest

/-- Message of the duplicate-HCONS construction error. -/
def dupHcMsg (hi : String) : String :=
  "Handle constraint already exists for hole " ++ hi ++ "."

/-- Xmrs.add_hcons for one (hi, relation, lo) constraint: reject a
duplicate high handle, store the constraint, ensure lo and hi exist in the
variable table, and record one back-reference on lo for every existing
reference to hi.  Python walks the hi references grouped by role; the
chronological log yields the same back-reference multiset. -/
def Xmrs.addHc1 (x : Xmrs) (hc : String × String × String) :
    Except PyErr Xmrs :=
  let hi := hc.1
  let lo := hc.2.2
  if amem x.hcons hi then
    .error (.xmrsError (dupHcMsg hi))
  else
    let x1 := { x with hcons := x.hcons ++ [hc] }
    let x2 := x1.varEnsure lo
    let x3 := x2.varEnsure hi
    let hirefs := ((alookup x3.vars hi).getD VarEntry.empty).refs
    let f := fun (e : VarEntry) =>
      { e with hcrefs := e.hcrefs ++ hirefs.map (fun rn => (rn.2, rn.1, hi)) }
    .ok { x3 with vars := aupd x3.vars lo VarEntry.empty f }

/-- Xmrs.add_hcons over a sequence; the first duplicate high handle aborts
the loop with its error. -/
def Xmrs.add_hcons (x : Xmrs) : List (String × String × String) →
    Except PyErr Xmrs
  | [] => .ok x
  | hc :: rest =>
      match x.addHc1 hc with
      | .error e => .error e
      | .ok x1 => x1.add_hcons rest

/-- Xmrs.add_icons for one (left, relation, right) constraint: group it
under its left variable, record a back-reference on the right variable,
and ensure both endpoints exist in the variable table. -/
def Xmrs.addIc1 (x : Xmrs) (ic : String × String × String) : Xmrs :=
  let left := ic.1
  let right := ic.2.2
  let x1 := { x with icons := aupd x.icons left [] (fun l => l ++ [ic]) }
  let f := fun (e : VarEntry) => { e with icrefs := e.icrefs ++ [ic] }
  let x2 := { x1 with vars := aupd x1.vars right VarEntry.empty f }
  x2.varEnsure left

/-- Xmrs.add_icons over a sequence (never raises for record inputs). -/
def Xmrs.add_icons (x : Xmrs) (ics : List (String × String × String)) : Xmrs :=
  ics.foldl Xmrs.addIc1 x

/-- The opening phase of Xmrs.__init__: vivify top/index/xarg and install
the supplied variable property lists on the empty state. -/
def mkXmrsInit (top index xarg : Option String)
    (vars : List (String × List (String × PropV))) : Xmrs :=
  let x0 := { Xmrs.empty with top := top, index := index, xarg := xarg }
  let x1 := match top with | none => x0 | some t => x0.varEnsure t
  let x2 := match index with | none => x1 | some i => x1.varEnsure i
  let x3 := match xarg with | none => x2 | some a => x2.varEnsure a
  vars.foldl (fun acc vp => acc.setProps vp.1 vp.2) x3

/-- Xmrs.__init__: vivify top/index/xarg, install the variable property
lists, then add EPs, HCONS and ICONS, and attach the surface metadata. -/
def mkXmrs (top index xarg : Option String) (eps : List EP)
    (hcons : List (String × String × String))
    (icons : List (String × String × String))
    (vars : List (String × List (String × PropV)))
    (lnk : Option (Int × Int)) (surface identifier : Option String) :
    Except PyErr Xmrs :=
  Except.bind ((mkXmrsInit top index xarg vars).add_eps eps) (fun x5 =>
    Except.bind (x5.add_hcons hcons) (fun x6 =>
      let x7 := x6.add_icons icons
      .ok { x7 with lnk := lnk, surface := surface, identifier := identifier }))

/-- The running counter Mrs.__init__ uses to pick fresh node ids: starts at
FIRST_NODEID and is bumped to one above every explicit node id at least as
large as the counter. -/
def nextNodeid (eps : List EP) : Int :=
  eps.foldl
    (fun acc ep => match ep.nodeid with
      | some n => if n ≥ acc then n + 1 else acc
      | none => acc)
    FIRST_NODEID

/-- The node id assignment step of Mrs.__init__: an EP without a node id at
position i in the full sequence receives nextNodeid plus i; explicit ids
are kept. -/
def assignNodeids (eps : List EP) : List EP :=
  let nxt := nextNodeid eps
  eps.enum.map
    (fun iep =>
      if iep.2.nodeid = none then
        { iep.2 with nodeid := some (nxt + (iep.1 : Int)) }
      else iep.2)

/-- The Mrs constructor: assign missing node ids, then build the graph with
the generic Xmrs initializer. -/
def Mrs (top index xarg : Option String) (rels : List EP)
    (hcons icons : List (String × String × String))
    (lnk : Option (Int × Int)) (surface identifier : Option String)
    (vars : List (String × List (String × PropV))) : Except PyErr Xmrs :=
  mkXmrs top index xarg (assignNodeids rels) hcons icons vars
    lnk surface identifier

/-- Xmrs.eps(): the stored EPs in node id insertion order.  The table
lookup cannot miss on states built by the constructors, which extend the
id list and the table together. -/
def Xmrs.epsList (x : Xmrs) : List EP :=
  x.nodeids.filterMap (fun nid => alookup x.eps nid)

/-- Xmrs.icons(): all individual constraints chained over left keys. -/
def Xmrs.iconsList (x : Xmrs) : List (String × String × String) :=
  x.icons.flatMap (·.2)

/-- Stable insertion into a list sorted by a boolean ordering (the inserted
element goes after existing elements it does not strictly precede). -/
def sinsert {α : Type} (le : α → α → Bool) (a : α) : List α → List α
  | [] => [a]
  | b :: rest => if le b a then b :: sinsert le a rest else a :: b :: rest

/-- Stable insertion sort standing in for the Python builtin sorted. -/
def pySorted {α : Type} (le : α → α → Bool) : List α → List α
  | [] => []
  | a :: rest => sinsert le a (pySorted le rest)

/-- Ordering key used when Python sorts EP tuples: node ids are unique
within one graph, so the comparison is decided at the leading nodeid
field. -/
def epLe (a b : EP) : Bool := a.nodeid.getD 0 ≤ b.nodeid.getD 0

/-- Lexicographic ordering of (hi, relation, lo) string triples, the order
Python uses when sorting HCONS or ICONS tuples. -/
def tripleLe (a b : String × String × String) : Bool :=
  a.1 < b.1 || (a.1 = b.1 && (a.2.1 < b.2.1 ||
    (a.2.1 = b.2.1 && a.2.2 ≤ b.2.2)))

/-- Pairwise comparison of two lists: same length and equal at every
position (the zip test of Xmrs.__eq__). -/
def pairwiseEq {α : Type} [DecidableEq α] (l1 l2 : List α) : Bool :=
  l1.length = l2.length && (l1.zip l2).all (fun p => p.1 = p.2)

/-- Xmrs.__eq__: compare the (top, index, xarg) triple, then the sorted EP
sequences, then the sorted HCONS sequences, then the sorted ICONS
sequences. -/
def xmrsEq (a b : Xmrs) : Bool :=
  if (a.top, a.index, a.xarg) ≠ (b.top, b.index, b.xarg) then false
  else
    pairwiseEq (pySorted epLe a.epsList) (pySorted epLe b.epsList) &&
    pairwiseEq (pySorted tripleLe a.hcons) (pySorted tripleLe b.hcons) &&
    pairwiseEq (pySorted tripleLe a.iconsList) (pySorted tripleLe b.iconsList)

/-- References to a variable under one role, in chronological order (one
per-role list of the refs defaultdict). -/
def Xmrs.refsFor (x : Xmrs) (v : String) (role : String) : List (Option Int) :=
  ((alookup x.vars v).getD VarEntry.empty).refs.filterMap
    (fun rn => if rn.1 = role then some rn.2 else none)

/-- Xmrs.labelset as a read-only query, defined on a possibly missing
label: the variable table is a defaultdict, so an unknown label (or the
Python None label, which never receives LBL references from add_eps)
yields the empty list rather than an error. -/
def Xmrs.labelset (x : Xmrs) (lbl : Option String) : List (Option Int) :=
  match lbl with
  | none => []
  | some v => x.refsFor v "LBL"

/-- Xmrs.labelset with its defaultdict side effect made explicit: the
lookup on a missing label silently creates the variable-table entry.
Returns the labelset together with the state after the access. -/
def Xmrs.labelsetVivify (x : Xmrs) (lbl : String) :
    List (Option Int) × Xmrs :=
  (x.refsFor lbl "LBL", x.varEnsure lbl)

/-- Xmrs.ep: EP table lookup, raising KeyError on an unknown node id. -/
def Xmrs.epGet (x : Xmrs) (nid : Option Int) : Except PyErr EP :=
  match alookup x.eps nid with
  | some ep => .ok ep
  | none => .error (.keyError (showNodeid nid))

/-- Xmrs.nodeids(ivs=..., quantifier=...): collect node ids, restricted to
those referencing the given intrinsic variables (raising KeyError for a
variable that is unknown or has no intrinsic-variable references) and then
filtered by quantifier status. -/
def Xmrs.nodeidsAcc (x : Xmrs) (ivs : Option (List String))
    (quantifier : Option Bool) : Except PyErr (List (Option Int)) := do
  let nids ← match ivs with
    | none => pure x.nodeids
    | some l =>
        l.foldlM
          (fun acc iv =>
            match alookup x.vars iv with
            | some e =>
                if e.refs.any (fun rn => rn.1 = IVARG_ROLE) then
                  pure (acc ++ x.refsFor iv IVARG_ROLE)
                else .error (.keyError iv)
            | none => .error (.keyError iv))
          []
  match quantifier with
  | none => pure nids
  | some q =>
      nids.filterM (fun n => do
        let ep ← x.epGet n
        pure (predIsQuantifier ep.pred = q))

/-- Xmrs.nodeid: the first matching node id, or Python None. -/
def Xmrs.nodeid1 (x : Xmrs) (iv : String) (q : Option Bool) :
    Except PyErr (Option (Option Int)) :=
  (x.nodeidsAcc (some [iv]) q).map List.head?

/-- Xmrs.properties on a variable argument: known variables yield their
property list; the EP-table branch of the source compares a string against
the integer-keyed EP table and never matches, so an unknown variable
raises KeyError.  The as_list=False dict conversion is the identity on an
association list. -/
def Xmrs.propertiesVar (x : Xmrs) (v : String) :
    Except PyErr (List (String × PropV)) :=
  match alookup x.vars v with
  | some e => .ok e.props
  | none => .error (.keyError v)

/-- One relation entry of the MRS export dictionary.  The surface and base
keys are read back by Mrs.from_dict but never written by Mrs.to_dict; they
are carried so that import stays the structural inverse of the shape. -/
structure RelD : Type where
  label : Option String
  predicate : String
  arguments : List (String × String)
  lnk : Option (Int × Int)
  surface : Option String
  base : Option String
  deriving DecidableEq, Repr

/-- One constraint entry of the MRS export dictionary: either an HCONS
entry carrying high/low keys or an ICONS entry carrying left/right keys. -/
inductive ConsD : Type
  | hc (relation high low : String)
  | ic (relation left right : String)
  deriving DecidableEq, Repr

/-- One variable entry of the MRS export dictionary. -/
structure VarD : Type where
  type : String
  properties : Option (List (String × PropV))

/-- The MRS export dictionary.  Mrs.to_dict writes relations, constraints,
variables and (when present) top and index; the xarg, lnk, surface and
identifier keys are read by Mrs.from_dict but never written by Mrs.to_dict
(the xarg line in the source is commented out), so exporting always leaves
them absent. -/
structure MrsDict : Type where
  relations : List RelD
  constraints : List ConsD
  variables_ : List (String × VarD)
  top : Option String
  index : Option String
  xarg : Option String
  lnk : Option (Int × Int)
  surface : Option String
  identifier : Option String

/-- Mrs.to_dict with the default flags (short_pred and properties true). -/
def Mrs.to_dict (x : Xmrs) : MrsDict :=
  { relations := x.epsList.map (fun ep =>
      { label := ep.label, predicate := predShortForm ep.pred,
        arguments := ep.args, lnk := ep.lnk,
        surface := none, base := none }),
    constraints :=
      x.hcons.map (fun h => ConsD.hc h.2.1 h.1 h.2.2) ++
      x.iconsList.map (fun ic => ConsD.ic ic.2.1 ic.1 ic.2.2),
    variables_ := x.vars.map (fun ve =>
      (ve.1,
       { type := var_sort ve.1,
         properties :=
           if ve.2.props.isEmpty then none else some ve.2.props })),
    top := x.top, index := x.index,
    xarg := none, lnk := none, surface := none, identifier := none }

/-- Mrs.from_dict: rebuild EP records without node ids, read HCONS entries
from constraints carrying a high key, then read ICONS entries from
constraints carrying a left key — but that comprehension fetches the high,
relation and low keys, which an ICONS entry does not have, so any ICONS
entry raises KeyError (the high key is fetched first).  Variable entries
drop their type key; a remaining properties binding becomes the single
binding of the rebuilt property list. -/
def Mrs.from_dict (d : MrsDict) : Except PyErr Xmrs :=
  if d.constraints.any (fun c => match c with | .ic _ _ _ => true | _ => false)
  then .error (.keyError "high")
  else
    Mrs d.top d.index d.xarg
      (d.relations.map (fun r =>
        EP.mk none r.predicate r.label r.arguments r.lnk r.surface r.base))
      (d.constraints.filterMap (fun c =>
        match c with
        | .hc rel hi lo => some (hi, rel, lo)
        | .ic _ _ _ => none))
      [] d.lnk d.surface d.identifier
      (d.variables_.map (fun vd =>
        (vd.1,
         match vd.2.properties with
         | some pl => [("properties", PropV.pl pl)]
         | none => ([] : List (String × PropV)))))

/-- The Rmrs constructor.  The source converts the documented node-id-to-
arguments mapping with list(args or []), which yields the list of its keys:
iterating that list and reading a nodeid attribute off an integer key
raises AttributeError before the EP loop ever runs, and when the mapping is
empty the later args.get call is attempted on an empty list, which also
raises AttributeError as soon as one EP passes its anchor check. -/
def Rmrs (top index xarg : Option String) (eps : List EP)
    (args : List (Int × List (String × String)))
    (hcons icons : List (String × String × String))
    (lnk : Option (Int × Int)) (surface identifier : Option String)
    (vars : List (String × List (String × PropV))) : Except PyErr Xmrs :=
  match args with
  | _ :: _ => .error (.attributeError "int object has no attribute nodeid")
  | [] =>
      match eps with
      | [] => mkXmrs top index xarg [] hcons icons vars lnk surface identifier
      | ep :: _ =>
          if ep.nodeid = none then
            .error (.xmrsStructureError "RMRS EPs must have a nodeid.")
          else .error (.attributeError "list object has no attribute get")

/-- Uppercase a string by mapping its characters (the Python upper call on
role names, which the module compares against NIL and RSTR). -/
def pyUpper (s : String) : String := String.mk (s.data.map Char.toUpper)

/-- First-occurrence deduplication, standing in for building a Python set
from a list; only membership and set equality of the result are ever
observed, so the iteration order chosen here is immaterial. -/
def pydedup {α : Type} [DecidableEq α] (l : List α) : List α :=
  l.foldl (fun acc a => if acc.contains a then acc else acc ++ [a]) []

/-- Set equality of two lists viewed as finite sets. -/
def listSetEq {α : Type} [DecidableEq α] (a b : List α) : Bool :=
  a.all (b.contains ·) && b.all (a.contains ·)

/-- Add a directed edge to an adjacency list with set semantics on the
neighbour list, vivifying the source key.  Keys are pre-seeded by every
caller, so vivification never fires on the source node-id graph. -/
def adjAddSet {α : Type} [DecidableEq α] (g : List (α × List α)) (a b : α) :
    List (α × List α) :=
  aupd g a [] (fun l => if l.contains b then l else l ++ [b])

/-- Fuel bound for the breadth-first traversal: one pop per agenda item,
and the agenda never receives more than the start item plus one item per
adjacency entry. -/
def bfsFuel {α : Type} (g : List (α × List α)) : Nat :=
  1 + g.length + g.foldl (fun acc p => acc + p.2.length) 0

/-- Worker of the breadth-first traversal: pop the agenda head, mark it
seen, and push its not-yet-seen neighbours. -/
def bfsAux {α : Type} [DecidableEq α] (g : List (α × List α)) :
    Nat → List α → List α → List α
  | 0, _, seen => seen
  | _ + 1, [], seen => seen
  | fuel + 1, a :: agenda, seen =>
      if seen.contains a then bfsAux g fuel agenda seen
      else
        let seen2 := seen ++ [a]
        let nbrs := ((alookup g a).getD []).filter (fun y => ¬ seen2.contains y)
        bfsAux g fuel (agenda ++ nbrs) seen2

/-- The module-level _bfs: an empty graph returns just the start element
(or nothing when no start is given); otherwise traverse from the given
start, defaulting to the first key. -/
def pybfs {α : Type} [DecidableEq α] (g : List (α × List α))
    (start : Option α) : List α :=
  match g with
  | [] => match start with | some s => [s] | none => []
  | (k, v) :: rest =>
      let g1 := (k, v) :: rest
      bfsAux g1 (bfsFuel g1) [start.getD k] []

/-- A DMRS node record: (nodeid, pred, sortinfo, lnk, surface, base,
carg).  The Node class lives in delphin.mrs.components (not under src/);
this is the record shape of section 6 of the spec. -/
structure DNode : Type where
  nodeid : Int
  pred : String
  sortinfo : List (String × String)
  lnk : Option (Int × Int)
  surface : Option String
  base : Option String
  carg : Option String
  deriving DecidableEq, Repr

/-- Modelled from the spec: a node's declared sort, read from its sortinfo
under the cvarsort key, with the unknown sort as default. -/
def DNode.cvarsort (n : DNode) : String :=
  (alookup n.sortinfo CVARSORT).getD UNKNOWNSORT

/-- A DMRS link record: (start, end, rargname, post); the end field is
spelled endN because end is reserved in Lean. -/
structure DLink : Type where
  start : Int
  endN : Int
  rargname : Option String
  post : String
  deriving DecidableEq, Repr

/-- Modelled from the spec: the fresh-variable generator of
delphin.mrs.components (not under src/).  It mints sort-plus-counter
tokens, records their properties in its store, and starts its counter
above zero so that the h0-equivalent only appears after the reset that the
spec describes for a top link (section 4.6 step 1). -/
structure VarGenerator : Type where
  vid : Nat
  store : List (String × List (String × String))

/-- Fresh generator state. -/
def VarGenerator.init : VarGenerator := ⟨1, []⟩

/-- Mint the next variable of a sort, with optional properties. -/
def VarGenerator.new (vg : VarGenerator) (sort : String)
    (props : List (String × String)) : String × VarGenerator :=
  let v := sort ++ toString vg.vid
  (v, ⟨vg.vid + 1, vg.store ++ [(v, props)]⟩)

/-- One link of the first pass of _make_labels: prepend the reserved top
id (resetting the generator counter) for a link starting there, and record
an undirected EQ edge for an EQ post. -/
def labelLinkStep (st : List (Int × List Int) × List Int × VarGenerator)
    (l : DLink) : List (Int × List Int) × List Int × VarGenerator :=
  ((if l.post = EQ_POST then
      adjAddSet (adjAddSet st.1 l.start l.endN) l.endN l.start
    else st.1),
   (if l.start = LTOP_NODEID then LTOP_NODEID :: st.2.1 else st.2.1),
   (if l.start = LTOP_NODEID then { st.2.2 with vid := 0 } else st.2.2))

/-- One node id of the assignment pass of _make_labels: skip seen ids,
otherwise mint a fresh handle and spread it over the id's EQ component. -/
def labelAssignStep (eq : List (Int × List Int))
    (st2 : List (Int × String) × List Int × VarGenerator) (nid : Int) :
    List (Int × String) × List Int × VarGenerator :=
  if st2.2.1.contains nid then st2
  else
    let mint := st2.2.2.new HANDLESORT []
    let comp := pybfs eq (some nid)
    (comp.foldl (fun ls c => aset ls c mint.1) st2.1,
     st2.2.1 ++ comp, mint.2)

/-- The _make_labels helper: collect the undirected EQ-link edges, prepend
the reserved top id (resetting the generator) for every link starting
there, then walk the node ids assigning one fresh handle per connected
component of the EQ graph. -/
def make_labels (nodes : List DNode) (links : List DLink)
    (vg : VarGenerator) : List (Int × String) × VarGenerator :=
  let st := links.foldl labelLinkStep ([], nodes.map (·.nodeid), vg)
  let fin := st.2.1.foldl (labelAssignStep st.1) ([], [], st.2.2)
  (fin.1, fin.2.2)

/-- One node of _make_ivs: quantifiers are skipped, any other node gets a
fresh variable of its declared sort carrying its non-sort properties. -/
def makeIvsStep (st : List (Int × String) × VarGenerator) (node : DNode) :
    List (Int × String) × VarGenerator :=
  if predIsQuantifier node.pred then st
  else
    let mint := st.2.new node.cvarsort
      (node.sortinfo.filter (fun kv => kv.1 ≠ CVARSORT))
    (aset st.1 node.nodeid mint.1, mint.2)

/-- The _make_ivs helper: mint one intrinsic variable per non-quantifier
node, sorted by the node's declared sort and carrying its non-sort
properties. -/
def make_ivs (nodes : List DNode) (vg : VarGenerator) :
    List (Int × String) × VarGenerator :=
  nodes.foldl makeIvsStep ([], vg)

/-- Association-list lookup that raises KeyError like a Python dict
subscript. -/
def lookupE {α β : Type} [DecidableEq α] (l : List (α × β)) (a : α)
    (key : String) : Except PyErr β :=
  match alookup l a with
  | some b => .ok b
  | none => .error (.keyError key)

/-- State threaded through the Dmrs link loop: top, the per-node argument
maps, the HCONS list, the intrinsic-variable map and the generator. -/
structure DmrsSt : Type where
  top : Option String
  args : List (Int × List (String × String))
  hcons : List (String × String × String)
  ivs : List (Int × String)
  vg : VarGenerator

/-- One iteration of the Dmrs link loop, dispatching on the post tag as in
Dmrs.__init__: a link from the reserved top sets top and (for an H or NIL
post) adds a qeq from top's label to the end label; a missing or NIL role
name adds no argument; an H post mints a hole qeq'd to the end label (an
RSTR role additionally propagates the end node's intrinsic variable to the
start node); an HEQ post targets the end label directly; anything else
targets the end node's intrinsic variable. -/
def dmrsLinkStep (labels : List (Int × String)) (st0 : DmrsSt) (l : DLink) :
    Except PyErr DmrsSt :=
  let args1 :=
    if amem st0.args l.start then st0.args else st0.args ++ [(l.start, [])]
  let st := { st0 with args := args1 }
  if l.start = LTOP_NODEID then
    match alookup labels LTOP_NODEID with
    | none => .error (.keyError (toString LTOP_NODEID))
    | some topv =>
        if l.post = H_POST || l.post = NIL_POST then
          match alookup labels l.endN with
          | none => .error (.keyError (toString l.endN))
          | some lo =>
              .ok { st with top := some topv,
                            hcons := st.hcons ++ [(topv, "qeq", lo)] }
        else .ok { st with top := some topv }
  else
    match l.rargname with
    | none => .ok st
    | some r =>
        if r = "" || pyUpper r = "NIL" then .ok st
        else if l.post = H_POST then
          match alookup labels l.endN with
          | none => .error (.keyError (toString l.endN))
          | some lo =>
              let hole := (st.vg.new HANDLESORT []).1
              let vg := (st.vg.new HANDLESORT []).2
              let hcons := st.hcons ++ [(hole, "qeq", lo)]
              let args := aset st.args l.start
                (aset ((alookup st.args l.start).getD []) r hole)
              if pyUpper r = RSTR_ROLE then
                match alookup st.ivs l.endN with
                | none => .error (.keyError (toString l.endN))
                | some ive =>
                    let args2 := aset args l.start
                      (aset ((alookup args l.start).getD []) IVARG_ROLE ive)
                    let ivs2 := aset st.ivs l.start ive
                    .ok { st with args := args2, hcons := hcons,
                                  ivs := ivs2, vg := vg }
              else .ok { st with args := args, hcons := hcons, vg := vg }
        else if l.post = HEQ_POST then
          match alookup labels l.endN with
          | none => .error (.keyError (toString l.endN))
          | some lo =>
              let args2 := aset st.args l.start
                (aset ((alookup st.args l.start).getD []) r lo)
              .ok { st with args := args2 }
        else
          match alookup st.ivs l.endN with
          | none => .error (.keyError (toString l.endN))
          | some ive =>
              let args2 := aset st.args l.start
                (aset ((alookup st.args l.start).getD []) r ive)
              .ok { st with args := args2 }

/-- One node of the EP-assembly loop of Dmrs.__init__: attach the constant
payload under the constant-argument role (a dict subscript that raises for
an unknown id), then build the EP from the node, its synthesized label and
its accumulated argument map. -/
def dmrsNodeStep (labels : List (Int × String))
    (acc : List (Int × List (String × String)) × List EP) (node : DNode) :
    Except PyErr (List (Int × List (String × String)) × List EP) :=
  let argsE : Except PyErr (List (Int × List (String × String))) :=
    match node.carg with
    | some c =>
        (match alookup acc.1 node.nodeid with
         | some m => .ok (aset acc.1 node.nodeid (aset m CONSTARG_ROLE c))
         | none => .error (.keyError (toString node.nodeid)))
    | none => .ok acc.1
  match argsE with
  | .error e => .error e
  | .ok args =>
      match alookup labels node.nodeid with
      | none => .error (.keyError (toString node.nodeid))
      | some lblv =>
          match alookup args node.nodeid with
          | none => .error (.keyError (toString node.nodeid))
          | some argm =>
              .ok (args, acc.2 ++
                [⟨some node.nodeid, node.pred, some lblv, argm,
                  node.lnk, node.surface, node.base⟩])

/-- The body of the Dmrs constructor after label and intrinsic-variable
synthesis: seed each argument map with the intrinsic-variable role, run
the link loop, assemble the EPs in node order (attaching constant
payloads), and delegate to the generic Xmrs initializer with the
generator's variable store (no individual constraints are produced on
this path). -/
def dmrsBuild (nodes : List DNode) (links : List DLink)
    (lnk : Option (Int × Int)) (surface identifier : Option String)
    (labels : List (Int × String)) (ivs0 : List (Int × String))
    (vg : VarGenerator) : Except PyErr Xmrs :=
  Except.bind
    (links.foldlM (dmrsLinkStep labels)
      ⟨none, ivs0.map (fun p => (p.1, [(IVARG_ROLE, p.2)])), [], ivs0, vg⟩)
    (fun st =>
      Except.bind (nodes.foldlM (dmrsNodeStep labels) (st.args, []))
        (fun fin =>
          mkXmrs st.top none none fin.2 st.hcons []
            (st.vg.store.map
              (fun p => (p.1, p.2.map (fun kv => (kv.1, PropV.s kv.2)))))
            lnk surface identifier))

/-- The Dmrs constructor: synthesize labels with a fresh generator, then
intrinsic variables with the generator state left by label synthesis, then
build the graph. -/
def Dmrs (nodes : List DNode) (links : List DLink) (lnk : Option (Int × Int))
    (surface identifier : Option String) : Except PyErr Xmrs :=
  dmrsBuild nodes links lnk surface identifier
    (make_labels nodes links VarGenerator.init).1
    (make_ivs nodes (make_labels nodes links VarGenerator.init).2).1
    (make_ivs nodes (make_labels nodes links VarGenerator.init).2).2

/-- Lexicographic comparison of the four-part sort key used by
labelset_heads (Python tuple comparison of ints). -/
def lex4Le (a b : Int × Int × Int × Int) : Bool :=
  a.1 < b.1 || (a.1 = b.1 && (a.2.1 < b.2.1 || (a.2.1 = b.2.1 &&
    (a.2.2.1 < b.2.2.1 || (a.2.2.1 = b.2.2.1 && a.2.2.2 ≤ b.2.2.2)))))

/-- Xmrs.labelset_heads: collect the labelset EPs with their intrinsic
variables, keep those whose arguments hit at most one labelset intrinsic
variable, and sort by out-degree ascending, in-degree descending,
quantifier-or-quantified status descending, then node id. -/
def Xmrs.labelset_heads (x : Xmrs) (label : String) :
    Except PyErr (List (Option Int)) := do
  let nodeidsD : List (Option Int × Option String) ←
    (x.refsFor label "LBL").foldlM
      (fun acc nid => do
        let ep ← x.epGet nid
        pure (aset acc nid (alookup ep.args IVARG_ROLE)))
      []
  if nodeidsD.length ≤ 1 then pure (akeys nodeidsD)
  else do
    let ivs : List (String × Option Int) := nodeidsD.foldl
      (fun acc p =>
        match p.2 with
        | some iv => aset acc iv p.1
        | none => acc)
      []
    let out : List (Option Int × Nat) ← nodeidsD.foldlM
      (fun acc p => do
        let ep ← x.epGet p.1
        pure (acc ++ [(p.1, ep.args.countP (fun rv => amem ivs rv.2))]))
      []
    let candidates := (out.filter (fun p => p.2 ≤ 1)).map (·.1)
    let inq : List (Option Int × Int × Int) ← candidates.foldlM
      (fun acc n => do
        let ivOpt := (alookup nodeidsD n).getD none
        let known := match ivOpt with
          | some iv => amem x.vars iv
          | none => false
        if known then do
          let iv := ivOpt.getD ""
          let entry := (alookup x.vars iv).getD VarEntry.empty
          let inn : Int := entry.refs.countP (fun rn => amem nodeidsD rn.2)
          let qq ← x.nodeid1 iv (some true)
          pure (acc ++ [(n, inn, if qq.isSome then (1 : Int) else 0)])
        else do
          let ep ← x.epGet n
          pure (acc ++
            [(n, 0, if predIsQuantifier ep.pred then (1 : Int) else 0)]))
      []
    let key := fun (n : Option Int) =>
      ((((alookup out n).getD 0 : Nat) : Int),
       -(((alookup inq n).getD (0, 0)).1),
       -(((alookup inq n).getD (0, 0)).2),
       n.getD 0)
    pure (pySorted (fun a b => lex4Le (key a) (key b)) candidates)

/-- Xmrs.is_connected: raise on an empty graph; otherwise connect label
sets as cliques, connect every argument to the node ids reachable through
its value (intrinsic-variable referrers, a qeq's low labelset, or a label's
labelset), both directions, and compare the breadth-first reachable set
against the node-id set.  A reachable id outside the node-id set raises
the bogus-nodeids error (whose Python join over ints would itself fail,
but no constructed state reaches it). -/
def Xmrs.is_connected (x : Xmrs) : Except PyErr Bool := do
  let nids := pydedup x.nodeids
  if nids.isEmpty then
    .error (.xmrsError "Cannot compute connectedness of an empty Xmrs.")
  else do
    let lblEdges : List (Option Int × Option Int) :=
      (x.epsList.map (·.label)).flatMap
        (fun lbl =>
          let lset := x.labelset lbl
          lset.flatMap (fun a =>
            (lset.filter (fun b => b ≠ a)).map (fun b => (a, b))))
    let argEdges ← nids.foldlM
      (fun (acc : List (Option Int × Option Int)) nid => do
        let ep ← x.epGet nid
        let es := ep.args.flatMap (fun rv =>
          let tgt := rv.2
          if ¬ amem x.vars tgt then []
          else
            let entry := (alookup x.vars tgt).getD VarEntry.empty
            let tgtnids :=
              if entry.refs.any (fun rn => rn.1 = IVARG_ROLE) then
                x.refsFor tgt IVARG_ROLE
              else if amem x.hcons tgt then
                x.labelset (some ((alookup x.hcons tgt).getD ("", "")).2)
              else if entry.refs.any (fun rn => rn.1 = "LBL") then
                x.refsFor tgt "LBL"
              else []
            let outs := tgtnids.filter (fun t => t ≠ nid)
            outs.map (fun t => (nid, t)) ++ outs.map (fun t => (t, nid)))
        pure (acc ++ es))
      []
    let g0 : List (Option Int × List (Option Int)) := nids.map (fun n => (n, []))
    let g := (lblEdges ++ argEdges).foldl
      (fun acc e => adjAddSet acc e.1 e.2) g0
    let connected := pybfs g none
    if listSetEq connected nids then pure true
    else
      let bogus := connected.filter (fun c => ¬ nids.contains c)
      if bogus.isEmpty then pure false
      else .error (.xmrsError ("Possibly bogus nodeids: " ++
        String.intercalate ", " (bogus.map showNodeid)))

/-- Message for an EP with no label. -/
def missingLabelMsg (nid : Option Int) : String :=
  "EP (" ++ showNodeid nid ++ ") is missing a label."

/-- Message for an EP with no intrinsic variable; the source formats a
literal with no placeholder, so the node id never appears in it. -/
def missingIvMsg : String := "EP (nid) is missing an intrinsic variable."

/-- Python string form of a possibly missing variable. -/
def showVarOpt : Option String → String
  | none => "None"
  | some v => v

/-- Message for an intrinsic variable claimed by two non-quantifier EPs. -/
def dupIvMsg (iv : Option String) : String :=
  showVarOpt iv ++ " is the intrinsic variable for more than one EP."

/-- Message for a bound variable claimed by two quantifiers. -/
def dupBvMsg (iv : Option String) : String :=
  showVarOpt iv ++ " is the bound variable for more than one quantifier."

/-- Message for an HCONS whose low side is not the label of any EP. -/
def danglingHcMsg (hc : String × String × String) : String :=
  "Lo variable of HCONS (" ++ hc.1 ++ " " ++ hc.2.1 ++ " " ++ hc.2.2 ++
    ") is not the label of any EP."

/-- Message for a disconnected graph. -/
def notConnectedMsg : String := "Xmrs structure is not connected."

/-- Messages one EP contributes to the validate error list, in source
order: missing label, missing intrinsic variable, then a duplicate bound
variable (for a quantifier, against the bound variables seen so far) or a
duplicate intrinsic variable (for a non-quantifier, against the intrinsic
variables seen so far). -/
def epStepMsgs (ivs bvs : List (Option String)) (ep : EP) : List String :=
  (if ep.label = none then [missingLabelMsg ep.nodeid] else []) ++
  (if alookup ep.args IVARG_ROLE = none then [missingIvMsg] else []) ++
  (if predIsQuantifier ep.pred then
    (if bvs.contains (alookup ep.args IVARG_ROLE) then
      [dupBvMsg (alookup ep.args IVARG_ROLE)]
    else [])
  else
    (if ivs.contains (alookup ep.args IVARG_ROLE) then
      [dupIvMsg (alookup ep.args IVARG_ROLE)]
    else []))

/-- One iteration of the EP pass of Xmrs.validate, carrying (errors,
intrinsic variables seen, bound variables seen, labels seen); the error
checks read the pre-iteration tables, as in the source. -/
def validateEpStep
    (st : List String × List (Option String) × List (Option String) ×
      List (Option String)) (ep : EP) :
    List String × List (Option String) × List (Option String) ×
      List (Option String) :=
  let iv := alookup ep.args IVARG_ROLE
  (st.1 ++ epStepMsgs st.2.1 st.2.2.1 ep,
   (if predIsQuantifier ep.pred then st.2.1
    else if st.2.1.contains iv then st.2.1 else st.2.1 ++ [iv]),
   (if predIsQuantifier ep.pred then
      (if st.2.2.1.contains iv then st.2.2.1 else st.2.2.1 ++ [iv])
    else st.2.2.1),
   (if st.2.2.2.contains ep.label then st.2.2.2 else st.2.2.2 ++ [ep.label]))

/-- The EP pass of Xmrs.validate: walk the EPs collecting messages for a
missing label, a missing intrinsic variable, a duplicated intrinsic
variable among non-quantifiers and a duplicated bound variable among
quantifiers, while recording the set of labels seen. -/
def Xmrs.validateEpPass (x : Xmrs) :
    List String × List (Option String) :=
  let st := x.epsList.foldl validateEpStep ([], [], [], [])
  (st.1, st.2.2.2)

/-- The full list of messages Xmrs.validate collects before the
connectivity check: the EP pass messages followed by one message per HCONS
whose low side is not among the labels seen. -/
def Xmrs.collectedErrs (x : Xmrs) : List String :=
  (x.validateEpPass).1 ++ x.hcons.filterMap
    (fun hc =>
      if (x.validateEpPass).2.contains (some hc.2.2) then none
      else some (danglingHcMsg hc))

/-- The error-collection phase of Xmrs.validate: the EP pass, then the
dangling-HCONS pass, then the connectivity check, whose own raise (on an
empty graph, or on bogus node ids) escapes before any collected message is
reported. -/
def Xmrs.validateErrors (x : Xmrs) : Except PyErr (List String) :=
  Except.bind x.is_connected (fun c =>
    .ok (if c then x.collectedErrs else x.collectedErrs ++ [notConnectedMsg]))

/-- Xmrs.validate: raise one combined error holding every collected
message, joined by newlines, when any problem was found. -/
def Xmrs.validate (x : Xmrs) : Except PyErr Unit :=
  match x.validateErrors with
  | .error e => .error e
  | .ok errs =>
      if errs.isEmpty then .ok ()
      else .error (.xmrsError (String.intercalate "\n" errs))

/-- Xmrs.is_well_formed: true when validate passes, false when it raises an
XmrsError (the structure error is a subclass of it); any other Python
error would escape the except clause, so it propagates. -/
def Xmrs.is_well_formed (x : Xmrs) : Except PyErr Bool :=
  match x.validate with
  | .ok _ => .ok true
  | .error (.xmrsError _) => .ok false
  | .error (.xmrsStructureError _) => .ok false
  | .error e => .error e

theorem smoke1 :
    (Xmrs.empty.add_eps
      [⟨some 10, "_dog_n_1", some "h1", [("ARG0", "x4")], none, none, none⟩,
       ⟨some 10, "_bark_v_1", some "h1", [("ARG0", "e2")], none, none, none⟩]).map
        (fun _ => ())
      = .error (.xmrsError (dupEpMsg (some 10) "_bark_v_1")) := rfl

/-! Helper lemmas about the association-list primitives. -/

theorem alookup_none_of_amem_false {α β : Type} [DecidableEq α]
    (l : List (α × β)) (a : α) (h : amem l a = false) : alookup l a = none := by
  induction l with
  | nil => rfl
  | cons p rest ih =>
      unfold amem at h
      simp only [List.any_cons, Bool.or_eq_false_iff] at h
      have h1 : ¬ p.1 = a := by simp at h; exact h.1
      unfold alookup
      simp only [h1, if_false]
      exact ih h.2

theorem amem_aset_self {α β : Type} [DecidableEq α]
    (l : List (α × β)) (a : α) (b : β) :
    amem (aset l a b) a = true := by
  induction l with
  | nil => simp [aset, amem]
  | cons p rest ih =>
      by_cases hp : p.1 = a
      · simp [aset, hp, amem]
      · unfold aset
        simp only [hp, if_false]
        unfold amem
        simp only [List.any_cons, Bool.or_eq_true]
        right
        exact ih

theorem amem_aupd_self {α β : Type} [DecidableEq α]
    (l : List (α × β)) (a : α) (d : β) (f : β → β) :
    amem (aupd l a d f) a = true := by
  unfold aupd
  cases hl : alookup l a with
  | none => simp [amem]
  | some v => exact amem_aset_self l a (f v)

theorem pairwise_all_self {α : Type} [DecidableEq α] (l : List α) :
    (l.zip l).all (fun p => p.1 = p.2) = true := by
  induction l with
  | nil => rfl
  | cons a t ih => simp [List.zip, ih]

theorem pairwiseEq_self {α : Type} [DecidableEq α] (l : List α) :
    pairwiseEq l l = true := by
  simp [pairwiseEq, pairwise_all_self]

/-- C9: Graph equality compares only top, index and xarg plus the sorted
EP, HCONS and ICONS sequences; two graphs that differ only in variable
property lists, graph-level lnk, surface string, or identifier are equal. -/
theorem c9_eq_ignores_properties_and_metadata
    (t i xa : Option String) (nids : List (Option Int))
    (eps : List (Option Int × EP)) (hc : List (String × String × String))
    (ic : List (String × List (String × String × String)))
    (base : List (String × VarEntry)) (p q : String → List (String × PropV))
    (l1 l2 : Option (Int × Int)) (s1 s2 id1 id2 : Option String) :
    xmrsEq
      ⟨t, i, xa, nids, eps, hc, ic,
        base.map (fun ve => (ve.1, { ve.2 with props := p ve.1 })), l1, s1, id1⟩
      ⟨t, i, xa, nids, eps, hc, ic,
        base.map (fun ve => (ve.1, { ve.2 with props := q ve.1 })), l2, s2, id2⟩
      = true := by
  simp [xmrsEq, Xmrs.epsList, Xmrs.iconsList, pairwiseEq_self]

/-- C10: on a graph with no EPs, is_connected raises rather than returning
a boolean, validate fails with that propagated connectivity error, and
is_well_formed returns false. -/
theorem c10_empty_graph_connectivity (x : Xmrs) (h : x.nodeids = []) :
    x.is_connected =
      .error (.xmrsError "Cannot compute connectedness of an empty Xmrs.") ∧
    x.validate =
      .error (.xmrsError "Cannot compute connectedness of an empty Xmrs.") ∧
    x.is_well_formed = .ok false := by
  have hconn : x.is_connected =
      .error (.xmrsError "Cannot compute connectedness of an empty Xmrs.") := by
    simp [Xmrs.is_connected, pydedup, h]
  have hval : x.validate =
      .error (.xmrsError "Cannot compute connectedness of an empty Xmrs.") := by
    simp only [Xmrs.validate, Xmrs.validateErrors, hconn]
    rfl
  refine ⟨hconn, hval, ?_⟩
  simp [Xmrs.is_well_formed, hval]

theorem c10_witness :
    Xmrs.empty.nodeids = [] ∧
    Xmrs.empty.is_connected =
      .error (.xmrsError "Cannot compute connectedness of an empty Xmrs.") ∧
    Xmrs.empty.validate =
      .error (.xmrsError "Cannot compute connectedness of an empty Xmrs.") ∧
    Xmrs.empty.is_well_formed = .ok false :=
  ⟨rfl, c10_empty_graph_connectivity Xmrs.empty rfl⟩

/-- The EP of the Rmrs docstring example inside delphin/mrs/xmrs.py. -/
def rmrsDocEp : EP :=
  ⟨some 10000, "_rain_v_1_rel", some "h1", [], none, none, none⟩

/-- C4: running the Rmrs constructor on its own docstring example (an EP
with an explicit anchor and a side table mapping that anchor to its
arguments) raises AttributeError instead of merging the arguments: the
source turns the documented mapping into the list of its keys, and an int
key has no nodeid attribute. -/
theorem c4_rmrs_crashes_on_docstring_example :
    (Rmrs (some "h0") (some "e2") none [rmrsDocEp]
      [(10000, [("ARG0", "e2")])] [("h0", "qeq", "h1")] [] none none none
      [("e2", [("SF", PropV.s "prop-or-ques"), ("TENSE", PropV.s "present")])]
      ).map (fun _ => ())
    = .error (.attributeError "int object has no attribute nodeid") := rfl
/-- C8 counterexample: labelset on a label never added to the variable
table returns the empty list and silently creates the entry, instead of
raising a not-found error as the claim states. -/
theorem c8_counterexample_labelset_vivifies :
    (Xmrs.empty.labelsetVivify "h99").1 = [] ∧
    ((Xmrs.empty.labelsetVivify "h99").2.vars.map (·.1)).contains "h99" = true :=
  ⟨rfl, rfl⟩

/-- C8 amended: on a variable never added to the variable table, the
lookups backed by plain dictionaries fail with the undecorated not-found
error (nodeids restricted by intrinsic variable, and properties), but
labelset instead returns the empty list and silently vivifies the
variable-table entry, because the table is a defaultdict. -/
theorem c8_amended_unknown_variable_lookups (x : Xmrs) (v : String)
    (h : amem x.vars v = false) :
    (x.labelsetVivify v).1 = [] ∧
    amem (x.labelsetVivify v).2.vars v = true ∧
    x.nodeidsAcc (some [v]) none = .error (.keyError v) ∧
    x.propertiesVar v = .error (.keyError v) := by
  have hl := alookup_none_of_amem_false x.vars v h
  refine ⟨?_, ?_, ?_, ?_⟩
  · simp [Xmrs.labelsetVivify, Xmrs.refsFor, hl, VarEntry.empty]
  · simp only [Xmrs.labelsetVivify, Xmrs.varEnsure]
    exact amem_aupd_self x.vars v VarEntry.empty id
  · simp [Xmrs.nodeidsAcc, List.foldlM, hl]
  · simp [Xmrs.propertiesVar, hl]

theorem c8_witness :
    amem Xmrs.empty.vars "x9" = false ∧
    ((Xmrs.empty.labelsetVivify "x9").1 = [] ∧
     amem (Xmrs.empty.labelsetVivify "x9").2.vars "x9" = true ∧
     Xmrs.empty.nodeidsAcc (some ["x9"]) none = .error (.keyError "x9") ∧
     Xmrs.empty.propertiesVar "x9" = .error (.keyError "x9")) :=
  ⟨rfl, c8_amended_unknown_variable_lookups Xmrs.empty "x9" rfl⟩

/-- An EP record holding only a predicate, with no explicit node id. -/
def epAnon (p : String) : EP := ⟨none, p, none, [], none, none, none⟩

/-- The C3 counterexample input: two EPs without node ids around one EP
with the explicit node id 20000. -/
def rc3 : List EP :=
  [epAnon "a", ⟨some 20000, "b", none, [], none, none, none⟩, epAnon "c"]

/-- C3 counterexample: on rc3 the constructor assigns 20001 and 20003 to
the two id-less records, so the assigned ids are not consecutive (the
claim requires 20001 and 20002). -/
theorem c3_counterexample_not_consecutive :
    (assignNodeids rc3).map EP.nodeid = [some 20001, some 20000, some 20003] ∧
    (20003 : Int) ≠ 20002 := ⟨rfl, by decide⟩

/-- The fold step of nextNodeid. -/
def nextStep (acc : Int) (ep : EP) : Int :=
  match ep.nodeid with
  | some n => if n ≥ acc then n + 1 else acc
  | none => acc

theorem nextNodeid_eq_fold (rels : List EP) :
    nextNodeid rels = rels.foldl nextStep FIRST_NODEID := rfl

theorem nextStep_fold_ge (l : List EP) (a : Int) :
    a ≤ l.foldl nextStep a := by
  induction l generalizing a with
  | nil => simp
  | cons e t ih =>
      refine le_trans ?_ (ih (nextStep a e))
      unfold nextStep
      cases h : e.nodeid with
      | none => simp
      | some n =>
          by_cases hn : n ≥ a
          · simp [hn]; omega
          · simp [hn]

theorem nextStep_fold_gt (l : List EP) (a : Int) (ep : EP) (hm : ep ∈ l)
    (k : Int) (hk : ep.nodeid = some k) : k < l.foldl nextStep a := by
  induction l generalizing a with
  | nil => cases hm
  | cons e t ih =>
      rcases List.mem_cons.mp hm with heq | hm2
      · subst heq
        refine lt_of_lt_of_le ?_ (nextStep_fold_ge t (nextStep a ep))
        unfold nextStep
        rw [hk]
        by_cases hn : k ≥ a
        · simp [hn]
        · simp [hn]; omega
      · exact ih (nextStep a e) hm2

theorem assign_strip_aux (nxt : Int) (l : List EP) (n : Nat) :
    ((List.enumFrom n l).map (fun iep =>
        if iep.2.nodeid = none then
          { iep.2 with nodeid := some (nxt + (iep.1 : Int)) }
        else iep.2)).map (fun e => { e with nodeid := none }) =
      l.map (fun e => { e with nodeid := none }) := by
  induction l generalizing n with
  | nil => rfl
  | cons a t ih =>
      simp only [List.enumFrom, List.map_cons]
      rw [ih]
      by_cases h : a.nodeid = none <;> simp [h]

theorem assign_get_aux (nxt : Int) (l : List EP) (n i : Nat) (ep : EP)
    (h : l.get? i = some ep) :
    ((List.enumFrom n l).map (fun iep =>
        if iep.2.nodeid = none then
          { iep.2 with nodeid := some (nxt + (iep.1 : Int)) }
        else iep.2)).get? i =
      some (if ep.nodeid = none then
        { ep with nodeid := some (nxt + ((n + i : Nat) : Int)) } else ep) := by
  induction l generalizing n i with
  | nil => simp [List.get?] at h
  | cons a t ih =>
      cases i with
      | zero =>
          simp [List.get?] at h
          subst h
          simp [List.enumFrom, List.get?]
      | succ j =>
          simp only [List.get?] at h
          have := ih (n + 1) j h
          simp only [List.enumFrom, List.map_cons, List.get?]
          rw [this]
          have harith : (n + 1) + j = n + (j + 1) := by omega
          rw [harith]

/-- C3 amended: the id-less record at position i of the full sequence is
assigned nextNodeid plus i, where nextNodeid is one above the maximum of
the explicitly supplied ids and FIRST_NODEID minus one; all other fields
and the relative order of the records are preserved; every explicitly
supplied id is below nextNodeid, so assigned ids (which are strictly
increasing in position) never collide with explicit ones.  The ids
assigned to different positions are not consecutive when a record with an
explicit id sits between them. -/
theorem c3_amended_nodeid_assignment (rels : List EP) :
    ((assignNodeids rels).map (fun e => { e with nodeid := none }) =
      rels.map (fun e => { e with nodeid := none })) ∧
    (∀ i ep, rels.get? i = some ep →
      (assignNodeids rels).get? i = some
        (if ep.nodeid = none then
          { ep with nodeid := some (nextNodeid rels + (i : Int)) }
        else ep)) ∧
    FIRST_NODEID ≤ nextNodeid rels ∧
    (∀ ep ∈ rels, ∀ k, ep.nodeid = some k → k < nextNodeid rels) ∧
    (∀ i j epi epj k, rels.get? i = some epi → epi.nodeid = none →
      rels.get? j = some epj → epj.nodeid = some k →
      nextNodeid rels + (i : Int) ≠ k) := by
  refine ⟨?_, ?_, ?_, ?_, ?_⟩
  · exact assign_strip_aux (nextNodeid rels) rels 0
  · intro i ep h
    have := assign_get_aux (nextNodeid rels) rels 0 i ep h
    simpa [assignNodeids, List.enum] using this
  · exact nextStep_fold_ge rels FIRST_NODEID
  · intro ep hm k hk
    exact nextStep_fold_gt rels FIRST_NODEID ep hm k hk
  · intro i j epi epj k hi hni hj hk
    have hlt : k < nextNodeid rels :=
      nextStep_fold_gt rels FIRST_NODEID epj (by
        exact List.get?_mem hj) k hk
    have : (0 : Int) ≤ (i : Int) := Int.ofNat_nonneg i
    omega

theorem c3_witness :
    ((assignNodeids rc3).map (fun e => { e with nodeid := none }) =
      rc3.map (fun e => { e with nodeid := none })) ∧
    nextNodeid rc3 + (0 : Int) ≠ 20000 :=
  ⟨(c3_amended_nodeid_assignment rc3).1,
   (c3_amended_nodeid_assignment rc3).2.2.2.2 0 1 (epAnon "a")
     ⟨some 20000, "b", none, [], none, none, none⟩ 20000 rfl rfl rfl rfl⟩

theorem except_bind_ok {ε α β : Type} (a : α) (f : α → Except ε β) :
    (Except.ok a >>= f) = f a := rfl

theorem except_bind_error {ε α β : Type} (e : ε) (f : α → Except ε β) :
    ((Except.error e : Except ε α) >>= f) = Except.error e := rfl

theorem except_bind_ok2 {ε α β : Type} (a : α) (f : α → Except ε β) :
    Except.bind (Except.ok a) f = f a := rfl

theorem except_bind_error2 {ε α β : Type} (e : ε) (f : α → Except ε β) :
    Except.bind (Except.error e : Except ε α) f = Except.error e := rfl

theorem amem_iff_mem_keys {α β : Type} [DecidableEq α]
    (l : List (α × β)) (a : α) : amem l a = true ↔ a ∈ l.map (·.1) := by
  simp [amem, List.any_eq_true, List.mem_map]

/-- All fields of a graph state except the variable table, bundled for
preservation lemmas: the reference-registration side effects of the add
operations only touch the variable table. -/
def coreOf (x : Xmrs) : Option String × Option String × Option String ×
    List (Option Int) × List (Option Int × EP) ×
    List (String × String × String) ×
    List (String × List (String × String × String)) ×
    Option (Int × Int) × Option String × Option String :=
  (x.top, x.index, x.xarg, x.nodeids, x.eps, x.hcons, x.icons,
   x.lnk, x.surface, x.identifier)

/-- All fields except the variable table and the HCONS table, bundled for
the add_hcons preservation lemma. -/
def coreOf2 (x : Xmrs) : Option String × Option String × Option String ×
    List (Option Int) × List (Option Int × EP) ×
    List (String × List (String × String × String)) ×
    Option (Int × Int) × Option String × Option String :=
  (x.top, x.index, x.xarg, x.nodeids, x.eps, x.icons,
   x.lnk, x.surface, x.identifier)

theorem refFold_coreOf (nid : Option Int) (l : List (String × String))
    (x : Xmrs) :
    coreOf (l.foldl (fun acc rv =>
      if amem acc.vars rv.2 || isVarStr rv.2 then
        acc.addRef rv.2 rv.1 nid
      else acc) x) = coreOf x := by
  induction l generalizing x with
  | nil => rfl
  | cons rv t ih =>
      simp only [List.foldl]
      rw [ih]
      by_cases h : (amem x.vars rv.2 || isVarStr rv.2) = true
      · simp only [h, if_true]
        rfl
      · simp [h]

theorem addEp1_ok_char (x : Xmrs) (ep : EP) (x' : Xmrs)
    (h : x.addEp1 ep = .ok x') :
    amem x.eps ep.nodeid = false ∧
    coreOf x' = coreOf { x with nodeids := x.nodeids ++ [ep.nodeid],
                                eps := x.eps ++ [(ep.nodeid, ep)] } := by
  unfold Xmrs.addEp1 at h
  by_cases hd : amem x.eps ep.nodeid
  · simp [hd] at h
  · simp only [hd, Bool.false_eq_true, if_false, Except.ok.injEq] at h
    refine ⟨by simpa using hd, ?_⟩
    subst h
    rw [refFold_coreOf]
    cases hl : ep.label with
    | none => rfl
    | some lbl => rfl

theorem addEp1_error_char (x : Xmrs) (ep : EP)
    (h : amem x.eps ep.nodeid = true) :
    x.addEp1 ep = .error (.xmrsError (dupEpMsg ep.nodeid ep.pred)) := by
  simp [Xmrs.addEp1, h]

theorem addEp1_ok_exists (x : Xmrs) (ep : EP)
    (h : amem x.eps ep.nodeid = false) :
    ∃ x', x.addEp1 ep = .ok x' := by
  simp [Xmrs.addEp1, h]

theorem coreOf_fields {a b : Xmrs} (h : coreOf a = coreOf b) :
    a.top = b.top ∧ a.index = b.index ∧ a.xarg = b.xarg ∧
    a.nodeids = b.nodeids ∧ a.eps = b.eps ∧ a.hcons = b.hcons ∧
    a.icons = b.icons ∧ a.lnk = b.lnk ∧ a.surface = b.surface ∧
    a.identifier = b.identifier := by
  simpa [coreOf, Prod.mk.injEq] using h

theorem add_eps_ok_char (eps : List EP) (x x' : Xmrs)
    (h : x.add_eps eps = .ok x') :
    coreOf x' = coreOf
      { x with nodeids := x.nodeids ++ eps.map EP.nodeid,
               eps := x.eps ++ eps.map (fun e => (e.nodeid, e)) } := by
  induction eps generalizing x with
  | nil =>
      unfold Xmrs.add_eps at h
      simp only [Except.ok.injEq] at h
      subst h
      simp [coreOf]
  | cons e rest ih =>
      unfold Xmrs.add_eps at h
      cases he : x.addEp1 e with
      | error er => rw [he] at h; cases h
      | ok x1 =>
          rw [he] at h
          have h1 := (addEp1_ok_char x e x1 he).2
          have h2 := ih x1 h
          obtain ⟨ht, hi, hxa, hn, hep, hhc, hic, hl, hs, hid⟩ :=
            coreOf_fields h1
          rw [h2]
          simp only [coreOf, hn, hep, hhc, hic, hl, hs, hid, ht, hi, hxa]
          simp [List.append_assoc]

theorem add_eps_ok_iff (eps : List EP) (x : Xmrs) :
    (∃ x', x.add_eps eps = .ok x') ↔
      ((eps.map EP.nodeid).Nodup ∧
        ∀ n ∈ eps.map EP.nodeid, n ∉ x.eps.map (·.1)) := by
  induction eps generalizing x with
  | nil => simp [Xmrs.add_eps]
  | cons e rest ih =>
      unfold Xmrs.add_eps
      by_cases hd : amem x.eps e.nodeid
      · rw [addEp1_error_char x e hd]
        simp only [List.map_cons, List.nodup_cons]
        constructor
        · rintro ⟨x', hx'⟩; cases hx'
        · rintro ⟨-, hall⟩
          exact absurd ((amem_iff_mem_keys x.eps e.nodeid).mp hd)
            (hall e.nodeid (List.mem_cons_self _ _))
      · have hd' : amem x.eps e.nodeid = false := by simpa using hd
        obtain ⟨x1, hx1⟩ := addEp1_ok_exists x e hd'
        rw [hx1]
        have hkeys : x1.eps.map (·.1) = x.eps.map (·.1) ++ [e.nodeid] := by
          have := (coreOf_fields (addEp1_ok_char x e x1 hx1).2).2.2.2.2.1
          rw [this]
          simp
        rw [ih x1, hkeys]
        have hdnm : e.nodeid ∉ x.eps.map (·.1) := by
          intro hm
          rw [← amem_iff_mem_keys] at hm
          rw [hd'] at hm
          cases hm
        simp only [List.map_cons, List.nodup_cons]
        constructor
        · rintro ⟨hnd, hall⟩
          refine ⟨⟨?_, hnd⟩, ?_⟩
          · intro hmem
            have h2 := hall e.nodeid hmem
            exact h2 (by simp)
          · intro n hn
            rcases List.mem_cons.mp hn with rfl | hn2
            · exact hdnm
            · intro hk
              exact hall n hn2 (by simp [hk])
        · rintro ⟨⟨hne, hnd⟩, hall⟩
          refine ⟨hnd, ?_⟩
          intro n hn
          simp only [List.mem_append, List.mem_singleton]
          rintro (hk | rfl)
          · exact hall n (List.mem_cons_of_mem _ hn) hk
          · exact hne hn

theorem add_eps_error_char (eps : List EP) (x : Xmrs) (er : PyErr)
    (h : x.add_eps eps = .error er) :
    ∃ i ep, eps.get? i = some ep ∧
      er = .xmrsError (dupEpMsg ep.nodeid ep.pred) ∧
      (ep.nodeid ∈ x.eps.map (·.1) ∨
        ep.nodeid ∈ (eps.take i).map EP.nodeid) := by
  induction eps generalizing x with
  | nil => unfold Xmrs.add_eps at h; cases h
  | cons e rest ih =>
      unfold Xmrs.add_eps at h
      by_cases hd : amem x.eps e.nodeid
      · rw [addEp1_error_char x e hd] at h
        simp only [Except.error.injEq] at h
        exact ⟨0, e, rfl, h.symm, Or.inl ((amem_iff_mem_keys _ _).mp hd)⟩
      · have hd' : amem x.eps e.nodeid = false := by simpa using hd
        obtain ⟨x1, hx1⟩ := addEp1_ok_exists x e hd'
        rw [hx1] at h
        obtain ⟨i, ep, hg, her, hmem⟩ := ih x1 h
        have hkeys : x1.eps.map (·.1) = x.eps.map (·.1) ++ [e.nodeid] := by
          have := (coreOf_fields (addEp1_ok_char x e x1 hx1).2).2.2.2.2.1
          rw [this]; simp
        refine ⟨i + 1, ep, hg, her, ?_⟩
        rcases hmem with hk | ht
        · rw [hkeys] at hk
          rcases List.mem_append.mp hk with hk1 | hk2
          · exact Or.inl hk1
          · right
            rw [List.take_succ_cons, List.map_cons]
            exact List.mem_cons.mpr (Or.inl (List.mem_singleton.mp hk2))
        · right
          rw [List.take_succ_cons, List.map_cons]
          exact List.mem_cons_of_mem _ ht

theorem addHc1_ok_char (x : Xmrs) (hc : String × String × String) (x' : Xmrs)
    (h : x.addHc1 hc = .ok x') :
    amem x.hcons hc.1 = false ∧
    x'.hcons = x.hcons ++ [hc] ∧ coreOf2 x' = coreOf2 x := by
  unfold Xmrs.addHc1 at h
  by_cases hd : amem x.hcons hc.1
  · simp [hd] at h
  · simp only [hd, Bool.false_eq_true, if_false, Except.ok.injEq] at h
    subst h
    exact ⟨by simpa using hd, rfl, rfl⟩

theorem addHc1_error_char (x : Xmrs) (hc : String × String × String)
    (h : amem x.hcons hc.1 = true) :
    x.addHc1 hc = .error (.xmrsError (dupHcMsg hc.1)) := by
  simp [Xmrs.addHc1, h]

theorem addHc1_ok_exists (x : Xmrs) (hc : String × String × String)
    (h : amem x.hcons hc.1 = false) : ∃ x', x.addHc1 hc = .ok x' := by
  simp [Xmrs.addHc1, h]

theorem coreOf2_fields {a b : Xmrs} (h : coreOf2 a = coreOf2 b) :
    a.top = b.top ∧ a.index = b.index ∧ a.xarg = b.xarg ∧
    a.nodeids = b.nodeids ∧ a.eps = b.eps ∧ a.icons = b.icons ∧
    a.lnk = b.lnk ∧ a.surface = b.surface ∧ a.identifier = b.identifier := by
  simpa [coreOf2, Prod.mk.injEq] using h

theorem add_hcons_ok_char (hcs : List (String × String × String))
    (x x' : Xmrs) (h : x.add_hcons hcs = .ok x') :
    x'.hcons = x.hcons ++ hcs ∧ coreOf2 x' = coreOf2 x := by
  induction hcs generalizing x with
  | nil =>
      unfold Xmrs.add_hcons at h
      simp only [Except.ok.injEq] at h
      subst h
      simp
  | cons hc rest ih =>
      unfold Xmrs.add_hcons at h
      cases he : x.addHc1 hc with
      | error er => rw [he] at h; cases h
      | ok x1 =>
          rw [he] at h
          obtain ⟨-, hh1, hc1⟩ := addHc1_ok_char x hc x1 he
          obtain ⟨hh2, hc2⟩ := ih x1 h
          refine ⟨?_, hc2.trans hc1⟩
          rw [hh2, hh1]
          simp

theorem add_hcons_ok_iff (hcs : List (String × String × String)) (x : Xmrs) :
    (∃ x', x.add_hcons hcs = .ok x') ↔
      ((hcs.map (·.1)).Nodup ∧
        ∀ hi ∈ hcs.map (·.1), hi ∉ x.hcons.map (·.1)) := by
  induction hcs generalizing x with
  | nil => simp [Xmrs.add_hcons]
  | cons hc rest ih =>
      unfold Xmrs.add_hcons
      by_cases hd : amem x.hcons hc.1
      · rw [addHc1_error_char x hc hd]
        simp only [List.map_cons, List.nodup_cons]
        constructor
        · rintro ⟨x', hx'⟩; cases hx'
        · rintro ⟨-, hall⟩
          exact absurd ((amem_iff_mem_keys x.hcons hc.1).mp hd)
            (hall hc.1 (List.mem_cons_self _ _))
      · have hd' : amem x.hcons hc.1 = false := by simpa using hd
        obtain ⟨x1, hx1⟩ := addHc1_ok_exists x hc hd'
        rw [hx1]
        have hkeys : x1.hcons.map (·.1) = x.hcons.map (·.1) ++ [hc.1] := by
          rw [(addHc1_ok_char x hc x1 hx1).2.1]
          simp
        rw [ih x1, hkeys]
        have hdnm : hc.1 ∉ x.hcons.map (·.1) := by
          intro hm
          rw [← amem_iff_mem_keys] at hm
          rw [hd'] at hm
          cases hm
        simp only [List.map_cons, List.nodup_cons]
        constructor
        · rintro ⟨hnd, hall⟩
          refine ⟨⟨?_, hnd⟩, ?_⟩
          · intro hmem
            exact hall hc.1 hmem (by simp)
          · intro n hn
            rcases List.mem_cons.mp hn with rfl | hn2
            · exact hdnm
            · intro hk
              exact hall n hn2 (by simp [hk])
        · rintro ⟨⟨hne, hnd⟩, hall⟩
          refine ⟨hnd, ?_⟩
          intro n hn
          simp only [List.mem_append, List.mem_singleton]
          rintro (hk | rfl)
          · exact hall n (List.mem_cons_of_mem _ hn) hk
          · exact hne hn

theorem add_hcons_error_char (hcs : List (String × String × String))
    (x : Xmrs) (er : PyErr) (h : x.add_hcons hcs = .error er) :
    ∃ i hc, hcs.get? i = some hc ∧
      er = .xmrsError (dupHcMsg hc.1) ∧
      (hc.1 ∈ x.hcons.map (·.1) ∨ hc.1 ∈ (hcs.take i).map (·.1)) := by
  induction hcs generalizing x with
  | nil => unfold Xmrs.add_hcons at h; cases h
  | cons hc rest ih =>
      unfold Xmrs.add_hcons at h
      by_cases hd : amem x.hcons hc.1
      · rw [addHc1_error_char x hc hd] at h
        simp only [Except.error.injEq] at h
        exact ⟨0, hc, rfl, h.symm, Or.inl ((amem_iff_mem_keys _ _).mp hd)⟩
      · have hd' : amem x.hcons hc.1 = false := by simpa using hd
        obtain ⟨x1, hx1⟩ := addHc1_ok_exists x hc hd'
        rw [hx1] at h
        obtain ⟨i, hc2, hg, her, hmem⟩ := ih x1 h
        have hkeys : x1.hcons.map (·.1) = x.hcons.map (·.1) ++ [hc.1] := by
          rw [(addHc1_ok_char x hc x1 hx1).2.1]; simp
        refine ⟨i + 1, hc2, hg, her, ?_⟩
        rcases hmem with hk | ht
        · rw [hkeys] at hk
          rcases List.mem_append.mp hk with hk1 | hk2
          · exact Or.inl hk1
          · right
            rw [List.take_succ_cons, List.map_cons]
            exact List.mem_cons.mpr (Or.inl (List.mem_singleton.mp hk2))
        · right
          rw [List.take_succ_cons, List.map_cons]
          exact List.mem_cons_of_mem _ ht

/-- C5: add_eps raises (the duplicate-node error, naming one offending
node id and its predicate) exactly when the incoming node ids collide
among themselves or with ids already in the graph, and add_hcons raises
(the duplicate-constraint error naming one offending high handle) exactly
when the incoming high handles collide among themselves or with handles
already constrained. -/
theorem c5_duplicate_errors (x : Xmrs) (eps : List EP)
    (hcs : List (String × String × String)) :
    ((∃ x', x.add_eps eps = .ok x') ↔
      ((eps.map EP.nodeid).Nodup ∧
        ∀ n ∈ eps.map EP.nodeid, n ∉ x.eps.map (·.1))) ∧
    (∀ er, x.add_eps eps = .error er →
      ∃ i ep, eps.get? i = some ep ∧
        er = .xmrsError (dupEpMsg ep.nodeid ep.pred) ∧
        (ep.nodeid ∈ x.eps.map (·.1) ∨
          ep.nodeid ∈ (eps.take i).map EP.nodeid)) ∧
    ((∃ x', x.add_hcons hcs = .ok x') ↔
      ((hcs.map (·.1)).Nodup ∧
        ∀ hi ∈ hcs.map (·.1), hi ∉ x.hcons.map (·.1))) ∧
    (∀ er, x.add_hcons hcs = .error er →
      ∃ i hc, hcs.get? i = some hc ∧
        er = .xmrsError (dupHcMsg hc.1) ∧
        (hc.1 ∈ x.hcons.map (·.1) ∨ hc.1 ∈ (hcs.take i).map (·.1))) :=
  ⟨add_eps_ok_iff eps x,
   fun er h => add_eps_error_char eps x er h,
   add_hcons_ok_iff hcs x,
   fun er h => add_hcons_error_char hcs x er h⟩

/-- The two duplicate EPs and HCONS of the C5 witness. -/
def dupEpA : EP := ⟨some 10, "_dog_n_1", some "h1", [("ARG0", "x4")], none, none, none⟩

/-- Second EP of the C5 witness, reusing node id 10. -/
def dupEpB : EP := ⟨some 10, "_bark_v_1", some "h1", [("ARG0", "e2")], none, none, none⟩

/-- First HCONS of the C5 witness. -/
def dupHcA : String × String × String := ("h0", "qeq", "h1")

/-- Second HCONS of the C5 witness, reusing high handle h0. -/
def dupHcB : String × String × String := ("h0", "qeq", "h3")

theorem c5_witness :
    (∃ i ep, [dupEpA, dupEpB].get? i = some ep ∧
      (PyErr.xmrsError (dupEpMsg (some 10) "_bark_v_1")) =
        .xmrsError (dupEpMsg ep.nodeid ep.pred) ∧
      (ep.nodeid ∈ Xmrs.empty.eps.map (·.1) ∨
        ep.nodeid ∈ ([dupEpA, dupEpB].take i).map EP.nodeid)) ∧
    (∃ i hc, [dupHcA, dupHcB].get? i = some hc ∧
      (PyErr.xmrsError (dupHcMsg "h0")) = .xmrsError (dupHcMsg hc.1) ∧
      (hc.1 ∈ Xmrs.empty.hcons.map (·.1) ∨
        hc.1 ∈ ([dupHcA, dupHcB].take i).map (·.1))) :=
  ⟨(c5_duplicate_errors Xmrs.empty [dupEpA, dupEpB] [dupHcA, dupHcB]).2.1
      _ rfl,
   (c5_duplicate_errors Xmrs.empty [dupEpA, dupEpB] [dupHcA, dupHcB]).2.2.2
      _ rfl⟩

theorem setPropsFold_coreOf (vars : List (String × List (String × PropV)))
    (x : Xmrs) :
    coreOf (vars.foldl (fun acc vp => acc.setProps vp.1 vp.2) x) = coreOf x := by
  induction vars generalizing x with
  | nil => rfl
  | cons vp t ih =>
      simp only [List.foldl]
      rw [ih]
      rfl

theorem mkXmrsInit_coreOf (top index xarg : Option String)
    (vars : List (String × List (String × PropV))) :
    coreOf (mkXmrsInit top index xarg vars) =
      coreOf { Xmrs.empty with top := top, index := index, xarg := xarg } := by
  unfold mkXmrsInit
  rw [setPropsFold_coreOf]
  cases top <;> cases index <;> cases xarg <;> rfl

theorem mkXmrs_ok_char (top index xarg : Option String) (eps : List EP)
    (hcons : List (String × String × String))
    (vars : List (String × List (String × PropV)))
    (lnk : Option (Int × Int)) (surface identifier : Option String)
    (x' : Xmrs)
    (h : mkXmrs top index xarg eps hcons [] vars lnk surface identifier
      = .ok x') :
    x'.top = top ∧ x'.index = index ∧ x'.xarg = xarg ∧
    x'.nodeids = eps.map EP.nodeid ∧
    x'.eps = eps.map (fun e => (e.nodeid, e)) ∧
    x'.hcons = hcons ∧ x'.icons = [] ∧
    x'.lnk = lnk ∧ x'.surface = surface ∧ x'.identifier = identifier ∧
    (eps.map EP.nodeid).Nodup ∧ (hcons.map (·.1)).Nodup := by
  unfold mkXmrs at h
  cases h5 : (mkXmrsInit top index xarg vars).add_eps eps with
  | error e => rw [h5, except_bind_error2] at h; cases h
  | ok x5 =>
      rw [h5, except_bind_ok2] at h
      cases h6 : x5.add_hcons hcons with
      | error e => rw [h6, except_bind_error2] at h; cases h
      | ok x6 =>
          rw [h6, except_bind_ok2] at h
          simp only [Except.ok.injEq] at h
          subst h
          have ci := coreOf_fields (mkXmrsInit_coreOf top index xarg vars)
          have c5f := coreOf_fields (add_eps_ok_char eps _ x5 h5)
          have c6a := add_hcons_ok_char hcons x5 x6 h6
          have c6f := coreOf2_fields c6a.2
          refine ⟨?_, ?_, ?_, ?_, ?_, ?_, ?_, rfl, rfl, rfl, ?_, ?_⟩
          · show x6.top = top
            rw [c6f.1, c5f.1]
            exact ci.1
          · show x6.index = index
            rw [c6f.2.1, c5f.2.1]
            exact ci.2.1
          · show x6.xarg = xarg
            rw [c6f.2.2.1, c5f.2.2.1]
            exact ci.2.2.1
          · show x6.nodeids = eps.map EP.nodeid
            rw [c6f.2.2.2.1, c5f.2.2.2.1]
            have : (mkXmrsInit top index xarg vars).nodeids = [] := ci.2.2.2.1
            simp [this]
          · show x6.eps = eps.map (fun e => (e.nodeid, e))
            rw [c6f.2.2.2.2.1, c5f.2.2.2.2.1]
            have : (mkXmrsInit top index xarg vars).eps = [] := ci.2.2.2.2.1
            simp [this]
          · show x6.hcons = hcons
            rw [c6a.1, c5f.2.2.2.2.2.1]
            have : (mkXmrsInit top index xarg vars).hcons = [] :=
              ci.2.2.2.2.2.1
            simp [this]
          · show x6.icons = []
            rw [c6f.2.2.2.2.2.1, c5f.2.2.2.2.2.2.1]
            exact ci.2.2.2.2.2.2.1
          · exact ((add_eps_ok_iff eps _).mp ⟨x5, h5⟩).1
          · exact ((add_hcons_ok_iff hcons x5).mp ⟨x6, h6⟩).1

theorem alookup_cons_ne {α β : Type} [DecidableEq α] (k : α) (v : β)
    (l : List (α × β)) (a : α) (h : ¬ k = a) :
    alookup ((k, v) :: l) a = alookup l a := by
  simp [alookup, h]

theorem filterMap_alookup_shift {β : Type} (ids : List (Option Int))
    (k : Option Int) (v : β) (ps : List (Option Int × β)) (h : k ∉ ids) :
    ids.filterMap (fun nid => alookup ((k, v) :: ps) nid) =
      ids.filterMap (fun nid => alookup ps nid) := by
  induction ids with
  | nil => rfl
  | cons i t ih =>
      simp only [List.filterMap_cons]
      have hne : ¬ k = i := fun he => h (he ▸ List.mem_cons_self i t)
      rw [alookup_cons_ne k v ps i hne]
      rw [ih (fun hm => h (List.mem_cons_of_mem i hm))]

theorem filterMap_alookup_pairs (l : List EP) :
    (l.map EP.nodeid).Nodup →
    (l.map EP.nodeid).filterMap
      (fun nid => alookup (l.map (fun e => (e.nodeid, e))) nid) = l := by
  induction l with
  | nil => intro _; rfl
  | cons e t ih =>
      intro hnd
      simp only [List.map_cons, List.filterMap_cons]
      have hl : alookup ((e.nodeid, e) :: t.map (fun e => (e.nodeid, e)))
          e.nodeid = some e := by
        simp [alookup]
      rw [hl]
      have hnotin : e.nodeid ∉ t.map EP.nodeid := (List.nodup_cons.mp hnd).1
      rw [filterMap_alookup_shift _ _ _ _ hnotin]
      rw [ih (List.nodup_cons.mp hnd).2]

theorem epsList_of_built (eps' : List EP) (g : Xmrs)
    (hnd : (eps'.map EP.nodeid).Nodup)
    (h1 : g.nodeids = eps'.map EP.nodeid)
    (h2 : g.eps = eps'.map (fun e => (e.nodeid, e))) :
    g.epsList = eps' := by
  unfold Xmrs.epsList
  rw [h1, h2]
  exact filterMap_alookup_pairs eps' hnd

theorem mkXmrs_ok_exists (top index xarg : Option String) (eps : List EP)
    (hcons : List (String × String × String))
    (vars : List (String × List (String × PropV)))
    (lnk : Option (Int × Int)) (surface identifier : Option String)
    (hnd : (eps.map EP.nodeid).Nodup) (hnh : (hcons.map (·.1)).Nodup) :
    ∃ x', mkXmrs top index xarg eps hcons [] vars lnk surface identifier
      = .ok x' := by
  have hinit := coreOf_fields (mkXmrsInit_coreOf top index xarg vars)
  obtain ⟨x5, h5⟩ := (add_eps_ok_iff eps (mkXmrsInit top index xarg vars)).mpr
    ⟨hnd, by
      intro n hn
      rw [hinit.2.2.2.2.1]
      simp [Xmrs.empty]⟩
  obtain ⟨x6, h6⟩ := (add_hcons_ok_iff hcons x5).mpr
    ⟨hnh, by
      intro hi hh
      have h5h := (coreOf_fields (add_eps_ok_char eps _ x5 h5)).2.2.2.2.2.1
      rw [h5h, hinit.2.2.2.2.2.1]
      simp [Xmrs.empty]⟩
  refine ⟨{ x6.add_icons [] with
      lnk := lnk, surface := surface, identifier := identifier }, ?_⟩
  unfold mkXmrs
  rw [h5, except_bind_ok2, h6, except_bind_ok2]

/-- The shape an EP record takes after one export-import cycle: no node
id, no surface, no base. -/
def stripAnon (e : EP) : EP :=
  { e with nodeid := none, surface := none, base := none }

theorem list_map_id_of {α : Type} (l : List α) (f : α → α)
    (h : ∀ a ∈ l, f a = a) : l.map f = l := by
  induction l with
  | nil => rfl
  | cons a t ih =>
      simp only [List.map_cons]
      rw [h a (List.mem_cons_self a t), ih (fun b hb => h b (List.mem_cons_of_mem a hb))]

theorem stripAnon_eq (ep : EP)
    (h : ep.nodeid = none ∧ ep.surface = none ∧ ep.base = none) :
    stripAnon ep = ep := by
  obtain ⟨n, p, l, a, lk, s, b⟩ := ep
  obtain ⟨h1, h2, h3⟩ := h
  simp only at h1 h2 h3
  simp [stripAnon, h1, h2, h3]

theorem assign_stripAnon_aux (nxt : Int) (l : List EP) (n : Nat) :
    ((List.enumFrom n l).map (fun iep =>
        if iep.2.nodeid = none then
          { iep.2 with nodeid := some (nxt + (iep.1 : Int)) }
        else iep.2)).map stripAnon = l.map stripAnon := by
  induction l generalizing n with
  | nil => rfl
  | cons a t ih =>
      simp only [List.enumFrom, List.map_cons]
      rw [ih]
      by_cases h : a.nodeid = none <;> simp [h, stripAnon]

theorem assign_stripAnon (rels : List EP) :
    (assignNodeids rels).map stripAnon = rels.map stripAnon :=
  assign_stripAnon_aux (nextNodeid rels) rels 0

theorem any_isIc_map_hc (l : List (String × String × String)) :
    ((l.map (fun h => ConsD.hc h.2.1 h.1 h.2.2)).any
      (fun c => match c with | ConsD.ic _ _ _ => true | _ => false)) = false := by
  induction l with
  | nil => rfl
  | cons h t ih =>
      simp only [List.map_cons, List.any_cons, Bool.or_eq_false_iff]
      exact ⟨trivial, ih⟩

/-- The EP used in the C1 counterexample graph. -/
def c1ep : EP := ⟨none, "_rain_v_1", some "h1", [("ARG0", "e2")], none, none, none⟩

/-- C1 counterexample: a graph built by the MRS constructor with an xarg
round-trips through to_dict and from_dict into a graph that is NOT
structurally equal to the original — the export drops xarg (the line
writing it is commented out in the source), so the re-import has none. -/
theorem c1_counterexample_xarg_dropped :
    (Mrs (some "h0") (some "e2") (some "x5") [c1ep] [("h0", "qeq", "h1")]
        [] none none none [] >>=
      (fun g => (Mrs.from_dict (Mrs.to_dict g)).map
        (fun g2 => (xmrsEq g g2, g.xarg, g2.xarg))))
      = .ok (false, some "x5", none) := rfl

/-- C1 amended: for a graph built by the MRS constructor with no xarg, no
ICONS, and every EP record supplied without an explicit node id, surface
or base, re-importing the export yields a graph structurally equal to the
original (same top and index, xarg absent on both sides, same EP multiset
with the same reassigned node ids, same HCONS multiset, ICONS empty). -/
theorem c1_amended_roundtrip (top index : Option String) (rels : List EP)
    (hcons : List (String × String × String))
    (vars : List (String × List (String × PropV)))
    (lnk : Option (Int × Int)) (surface identifier : Option String)
    (g : Xmrs)
    (hanon : ∀ ep ∈ rels,
      ep.nodeid = none ∧ ep.surface = none ∧ ep.base = none)
    (hok : Mrs top index none rels hcons [] lnk surface identifier vars
      = .ok g) :
    ∃ g2, Mrs.from_dict (Mrs.to_dict g) = .ok g2 ∧ xmrsEq g g2 = true := by
  obtain ⟨hgt, hgi, hgx, hgn, hge, hgh, hgic, hgl, hgs, hgid, hnd, hnh⟩ :=
    mkXmrs_ok_char top index none (assignNodeids rels) hcons vars
      lnk surface identifier g hok
  have hepsList : g.epsList = assignNodeids rels :=
    epsList_of_built _ g hnd hgn hge
  have hrel : (Mrs.to_dict g).relations =
      (assignNodeids rels).map (fun ep =>
        RelD.mk ep.label (predShortForm ep.pred) ep.args ep.lnk none none) := by
    simp [Mrs.to_dict, hepsList]
  have hcn : (Mrs.to_dict g).constraints =
      hcons.map (fun h => ConsD.hc h.2.1 h.1 h.2.2) := by
    simp [Mrs.to_dict, hgh, Xmrs.iconsList, hgic]
  have hany : ((Mrs.to_dict g).constraints.any
      (fun c => match c with | .ic _ _ _ => true | _ => false)) = false := by
    rw [hcn]
    exact any_isIc_map_hc hcons
  have heps2 : ((Mrs.to_dict g).relations.map (fun r =>
      EP.mk none r.predicate r.label r.arguments r.lnk r.surface r.base))
      = rels := by
    rw [hrel, List.map_map]
    have hcomp : ((fun r =>
        EP.mk none r.predicate r.label r.arguments r.lnk r.surface r.base) ∘
        (fun ep =>
          RelD.mk ep.label (predShortForm ep.pred) ep.args ep.lnk none none))
        = stripAnon := by
      funext ep
      rfl
    rw [hcomp, assign_stripAnon]
    exact list_map_id_of rels stripAnon (fun ep hm => stripAnon_eq ep (hanon ep hm))
  have hhc2 : ((Mrs.to_dict g).constraints.filterMap (fun c =>
      match c with
      | ConsD.hc rel hi lo => some (hi, rel, lo)
      | ConsD.ic _ _ _ => none)) = hcons := by
    rw [hcn, List.filterMap_map]
    have hcomp : ((fun c =>
        match c with
        | ConsD.hc rel hi lo => some (hi, rel, lo)
        | ConsD.ic _ _ _ => none) ∘
        (fun h : String × String × String => ConsD.hc h.2.1 h.1 h.2.2))
        = some := by
      funext h
      rfl
    rw [hcomp, List.filterMap_some]
  have htop2 : (Mrs.to_dict g).top = top := by simp [Mrs.to_dict, hgt]
  have hidx2 : (Mrs.to_dict g).index = index := by simp [Mrs.to_dict, hgi]
  have hfd : Mrs.from_dict (Mrs.to_dict g) =
      Mrs top index none rels hcons [] none none none
        ((Mrs.to_dict g).variables_.map (fun vd =>
          (vd.1,
           match vd.2.properties with
           | some pl => [("properties", PropV.pl pl)]
           | none => ([] : List (String × PropV))))) := by
    unfold Mrs.from_dict
    rw [hany]
    simp only [Bool.false_eq_true, if_false]
    rw [heps2, hhc2, htop2, hidx2]
    rfl
  obtain ⟨g2, hg2⟩ := mkXmrs_ok_exists top index none (assignNodeids rels)
    hcons
    ((Mrs.to_dict g).variables_.map (fun vd =>
      (vd.1,
       match vd.2.properties with
       | some pl => [("properties", PropV.pl pl)]
       | none => ([] : List (String × PropV)))))
    none none none hnd hnh
  obtain ⟨h2t, h2i, h2x, h2n, h2e, h2h, h2ic, h2l, h2s, h2id, -, -⟩ :=
    mkXmrs_ok_char top index none (assignNodeids rels) hcons _
      none none none g2 hg2
  have hepsList2 : g2.epsList = assignNodeids rels :=
    epsList_of_built _ g2 hnd h2n h2e
  refine ⟨g2, ?_, ?_⟩
  · rw [hfd]
    exact hg2
  · unfold xmrsEq
    rw [hgt, hgi, hgx, h2t, h2i, h2x, hepsList, hepsList2, hgh, h2h]
    rw [if_neg (by simp)]
    have hic1 : g.iconsList = [] := by simp [Xmrs.iconsList, hgic]
    have hic2 : g2.iconsList = [] := by simp [Xmrs.iconsList, h2ic]
    rw [hic1, hic2]
    simp [pairwiseEq_self]

theorem c1_witness :
    (∀ ep ∈ [c1ep],
      ep.nodeid = none ∧ ep.surface = none ∧ ep.base = none) ∧
    ∃ g g2, Mrs (some "h0") (some "e2") none [c1ep] [("h0", "qeq", "h1")]
        [] none none none [] = .ok g ∧
      Mrs.from_dict (Mrs.to_dict g) = .ok g2 ∧ xmrsEq g g2 = true := by
  refine ⟨by decide, ?_⟩
  obtain ⟨g, hg⟩ := mkXmrs_ok_exists (some "h0") (some "e2") none
    (assignNodeids [c1ep]) [("h0", "qeq", "h1")] [] none none none
    (by decide) (by decide)
  obtain ⟨g2, h1, h2⟩ := c1_amended_roundtrip (some "h0") (some "e2")
    [c1ep] [("h0", "qeq", "h1")] [] none none none g (by decide) hg
  exact ⟨g, g2, hg, h1, h2⟩

theorem isEmpty_false_of_mem {α : Type} {l : List α} {a : α} (h : a ∈ l) :
    l.isEmpty = false := by
  cases l with
  | nil => cases h
  | cons b t => rfl

theorem epStep_errors_mono (l : List EP)
    (st : List String × List (Option String) × List (Option String) ×
      List (Option String)) (m : String) (hm : m ∈ st.1) :
    m ∈ (l.foldl validateEpStep st).1 := by
  induction l generalizing st with
  | nil => exact hm
  | cons e t ih =>
      simp only [List.foldl]
      exact ih _ (List.mem_append_left _ hm)

theorem epStep_collects (l : List EP)
    (st : List String × List (Option String) × List (Option String) ×
      List (Option String)) (ep : EP) (hm : ep ∈ l) (msg : String)
    (hmsg : ∀ ivs bvs, msg ∈ epStepMsgs ivs bvs ep) :
    msg ∈ (l.foldl validateEpStep st).1 := by
  induction l generalizing st with
  | nil => cases hm
  | cons e t ih =>
      simp only [List.foldl]
      rcases List.mem_cons.mp hm with rfl | hm2
      · exact epStep_errors_mono t _ msg
          (List.mem_append_right _ (hmsg _ _))
      · exact ih _ hm2

theorem epStep_labels_sub (l : List EP)
    (st : List String × List (Option String) × List (Option String) ×
      List (Option String)) (v : Option String)
    (hv : v ∈ (l.foldl validateEpStep st).2.2.2) :
    v ∈ st.2.2.2 ∨ ∃ e ∈ l, e.label = v := by
  induction l generalizing st with
  | nil => exact Or.inl hv
  | cons e t ih =>
      simp only [List.foldl] at hv
      rcases ih _ hv with hin | ⟨e2, he2, hl2⟩
      · by_cases hc : st.2.2.2.contains e.label
        · rw [validateEpStep] at hin
          simp only [hc, if_true] at hin
          exact Or.inl hin
        · rw [validateEpStep] at hin
          simp only [hc, Bool.false_eq_true, if_false] at hin
          rcases List.mem_append.mp hin with h1 | h2
          · exact Or.inl h1
          · exact Or.inr ⟨e, List.mem_cons_self e t,
              (List.mem_singleton.mp h2).symm⟩
      · exact Or.inr ⟨e2, List.mem_cons_of_mem e he2, hl2⟩

/-- C7: whenever a graph holds an EP with no label and an HCONS whose low
side is not the label of any EP, and the connectivity check itself returns
(rather than raising), validate collects the missing-label message and the
dangling-HCONS message in one error list and raises them together as a
single combined failure. -/
theorem c7_validate_collects_both (x : Xmrs) (ep : EP)
    (hc : String × String × String) (b : Bool)
    (hep : ep ∈ x.epsList) (hlbl : ep.label = none)
    (hhc : hc ∈ x.hcons)
    (hdangle : ∀ e ∈ x.epsList, e.label ≠ some hc.2.2)
    (hconn : x.is_connected = .ok b) :
    ∃ errs, x.validateErrors = .ok errs ∧
      missingLabelMsg ep.nodeid ∈ errs ∧ danglingHcMsg hc ∈ errs ∧
      x.validate = .error (.xmrsError (String.intercalate "\n" errs)) := by
  have hmiss : missingLabelMsg ep.nodeid ∈ (x.validateEpPass).1 := by
    unfold Xmrs.validateEpPass
    refine epStep_collects x.epsList _ ep hep _ (fun ivs bvs => ?_)
    unfold epStepMsgs
    rw [hlbl]
    simp
  have hnotlbl : (x.validateEpPass).2.contains (some hc.2.2) = false := by
    by_cases hcont : (x.validateEpPass).2.contains (some hc.2.2) = true
    · exfalso
      have := List.elem_iff.mp hcont
      unfold Xmrs.validateEpPass at this
      rcases epStep_labels_sub x.epsList _ _ this with h1 | ⟨e2, he2, hl2⟩
      · cases h1
      · exact hdangle e2 he2 hl2
    · simpa using hcont
  have hdang : danglingHcMsg hc ∈ x.collectedErrs := by
    unfold Xmrs.collectedErrs
    refine List.mem_append_right _ ?_
    refine List.mem_filterMap.mpr ⟨hc, hhc, ?_⟩
    rw [hnotlbl]
    simp
  have hmiss2 : missingLabelMsg ep.nodeid ∈ x.collectedErrs :=
    List.mem_append_left _ hmiss
  have hve : x.validateErrors =
      .ok (if b then x.collectedErrs
           else x.collectedErrs ++ [notConnectedMsg]) := by
    unfold Xmrs.validateErrors
    rw [hconn, except_bind_ok2]
  refine ⟨(if b then x.collectedErrs
           else x.collectedErrs ++ [notConnectedMsg]), hve, ?_, ?_, ?_⟩
  · cases b
    · simp only [Bool.false_eq_true, if_false]
      exact List.mem_append_left _ hmiss2
    · simp only [if_true]
      exact hmiss2
  · cases b
    · simp only [Bool.false_eq_true, if_false]
      exact List.mem_append_left _ hdang
    · simp only [if_true]
      exact hdang
  · unfold Xmrs.validate
    rw [hve]
    have hne : (if b then x.collectedErrs
        else x.collectedErrs ++ [notConnectedMsg]).isEmpty = false := by
      cases b
      · simp only [Bool.false_eq_true, if_false]
        exact isEmpty_false_of_mem (List.mem_append_left _ hmiss2)
      · simp only [if_true]
        exact isEmpty_false_of_mem hmiss2
    generalize hE : (if b = true then x.collectedErrs
      else x.collectedErrs ++ [notConnectedMsg]) = errsE at hne
    show (if errsE.isEmpty = true then (Except.ok () : Except PyErr Unit)
      else Except.error (PyErr.xmrsError (String.intercalate "\n" errsE)))
      = Except.error (PyErr.xmrsError (String.intercalate "\n" errsE))
    rw [hne]
    simp

/-- The C7 witness graph: one EP with no label plus one dangling HCONS. -/
def gC7v : Xmrs :=
  match Mrs none none none
      [⟨none, "_dog_n_1", none, [("ARG0", "x4")], none, none, none⟩]
      [("h0", "qeq", "h99")] [] none none none [] with
  | .ok g => g
  | .error _ => Xmrs.empty

theorem c7_witness :
    ∃ errs, gC7v.validateErrors = .ok errs ∧
      missingLabelMsg (some 10000) ∈ errs ∧
      danglingHcMsg ("h0", "qeq", "h99") ∈ errs ∧
      gC7v.validate = .error (.xmrsError (String.intercalate "\n" errs)) :=
  c7_validate_collects_both gC7v
    ⟨some 10000, "_dog_n_1", none, [("ARG0", "x4")], none, none, none⟩
    ("h0", "qeq", "h99") true (by decide) rfl (by decide) (by decide) rfl

theorem alookup_aset_ne {α β : Type} [DecidableEq α] (l : List (α × β))
    (k : α) (v : β) (k2 : α) (h : ¬ k = k2) :
    alookup (aset l k v) k2 = alookup l k2 := by
  induction l with
  | nil => simp [aset, alookup, h]
  | cons p rest ih =>
      by_cases hp : p.1 = k
      · obtain ⟨pk, pv⟩ := p
        simp only at hp
        subst hp
        simp [aset, alookup, h]
      · obtain ⟨pk, pv⟩ := p
        simp only at hp
        simp only [aset, hp, if_false]
        by_cases hk2 : pk = k2
        · simp [alookup, hk2]
        · simp [alookup, hk2, ih]

theorem amem_aset_mono {α β : Type} [DecidableEq α] (l : List (α × β))
    (k : α) (v : β) (k2 : α) (h : amem l k2 = true) :
    amem (aset l k v) k2 = true := by
  induction l with
  | nil => simp [amem] at h
  | cons p rest ih =>
      obtain ⟨pk, pv⟩ := p
      by_cases hp : pk = k
      · subst hp
        simp only [aset, if_true]
        simpa [amem] using h
      · simp only [aset, hp, if_false]
        simp only [amem, List.any_cons, Bool.or_eq_true] at h ⊢
        rcases h with h1 | h2
        · exact Or.inl h1
        · exact Or.inr (ih h2)

theorem alookup_some_of_amem {α β : Type} [DecidableEq α]
    (l : List (α × β)) (a : α) (h : amem l a = true) :
    ∃ b, alookup l a = some b := by
  induction l with
  | nil => simp [amem] at h
  | cons p rest ih =>
      by_cases hp : p.1 = a
      · exact ⟨p.2, by obtain ⟨pk, pv⟩ := p; simp only at hp; subst hp; simp [alookup]⟩
      · obtain ⟨pk, pv⟩ := p
        simp only at hp
        simp only [amem, List.any_cons, Bool.or_eq_true] at h
        rcases h with h1 | h2
        · exact absurd (by simpa using h1) hp
        · simpa [alookup, hp] using ih h2

theorem labelAssignStep_empty
    (st2 : List (Int × String) × List Int × VarGenerator) (nid : Int) :
    labelAssignStep [] st2 nid =
      if st2.2.1.contains nid then st2
      else (aset st2.1 nid (st2.2.2.new HANDLESORT []).1,
            st2.2.1 ++ [nid], (st2.2.2.new HANDLESORT []).2) := by
  unfold labelAssignStep
  by_cases h : st2.2.1.contains nid <;> simp [h, pybfs]

theorem labelFold_amem_mono (nids : List Int)
    (st2 : List (Int × String) × List Int × VarGenerator) (k : Int)
    (hk : amem st2.1 k = true) :
    amem ((nids.foldl (labelAssignStep []) st2)).1 k = true := by
  induction nids generalizing st2 with
  | nil => exact hk
  | cons n t ih =>
      simp only [List.foldl, labelAssignStep_empty]
      by_cases hc : st2.2.1.contains n
      · simp only [hc, if_true]
        exact ih st2 hk
      · simp only [hc, Bool.false_eq_true, if_false]
        exact ih _ (amem_aset_mono _ _ _ _ hk)

theorem labelFold_preserve (nids : List Int)
    (st2 : List (Int × String) × List Int × VarGenerator) (k : Int)
    (hk : st2.2.1.contains k = true) :
    alookup ((nids.foldl (labelAssignStep []) st2)).1 k = alookup st2.1 k := by
  induction nids generalizing st2 with
  | nil => rfl
  | cons n t ih =>
      simp only [List.foldl, labelAssignStep_empty]
      by_cases hc : st2.2.1.contains n
      · simp only [hc, if_true]
        exact ih st2 hk
      · simp only [hc, Bool.false_eq_true, if_false]
        have hkn : ¬ n = k := fun he => hc (he ▸ hk)
        have hk2 : (st2.2.1 ++ [n]).contains k = true :=
          List.elem_iff.mpr (List.mem_append_left _ (List.elem_iff.mp hk))
        rw [ih (aset st2.1 n (st2.2.2.new HANDLESORT []).1,
          st2.2.1 ++ [n], (st2.2.2.new HANDLESORT []).2) hk2]
        exact alookup_aset_ne _ n _ k hkn

theorem labelFold_mem (nids : List Int)
    (st2 : List (Int × String) × List Int × VarGenerator)
    (hinv : ∀ s : Int, st2.2.1.contains s = true → amem st2.1 s = true) :
    ∀ nid ∈ nids, amem ((nids.foldl (labelAssignStep []) st2)).1 nid = true := by
  induction nids generalizing st2 with
  | nil => intro nid h; cases h
  | cons n t ih =>
      intro nid hmem
      simp only [List.foldl, labelAssignStep_empty]
      by_cases hc : st2.2.1.contains n
      · simp only [hc, if_true]
        rcases List.mem_cons.mp hmem with rfl | h2
        · exact labelFold_amem_mono t st2 nid (hinv nid hc)
        · exact ih st2 hinv nid h2
      · simp only [hc, Bool.false_eq_true, if_false]
        rcases List.mem_cons.mp hmem with rfl | h2
        · exact labelFold_amem_mono t _ nid (amem_aset_self _ _ _)
        · refine ih _ ?_ nid h2
          intro s hs
          rcases List.mem_append.mp (List.elem_iff.mp hs) with h3 | h4
          · exact amem_aset_mono _ _ _ _ (hinv s (List.elem_iff.mpr h3))
          · have : s = n := List.mem_singleton.mp h4
            subst this
            exact amem_aset_self _ _ _

theorem makeIvsFold_amem_mono (nodes : List DNode)
    (st : List (Int × String) × VarGenerator) (k : Int)
    (hk : amem st.1 k = true) :
    amem (nodes.foldl makeIvsStep st).1 k = true := by
  induction nodes generalizing st with
  | nil => exact hk
  | cons n t ih =>
      simp only [List.foldl]
      unfold makeIvsStep
      by_cases hq : predIsQuantifier n.pred
      · simp only [hq, if_true]
        exact ih st hk
      · simp only [hq, Bool.false_eq_true, if_false]
        exact ih _ (amem_aset_mono _ _ _ _ hk)

theorem makeIvsFold_mem (nodes : List DNode)
    (st : List (Int × String) × VarGenerator)
    (hnq : ∀ n ∈ nodes, predIsQuantifier n.pred = false) :
    ∀ n ∈ nodes, amem (nodes.foldl makeIvsStep st).1 n.nodeid = true := by
  induction nodes generalizing st with
  | nil => intro n h; cases h
  | cons m t ih =>
      intro n hmem
      simp only [List.foldl]
      unfold makeIvsStep
      rw [hnq m (List.mem_cons_self m t)]
      simp only [Bool.false_eq_true, if_false]
      rcases List.mem_cons.mp hmem with rfl | h2
      · exact makeIvsFold_amem_mono t _ n.nodeid (amem_aset_self _ _ _)
      · exact ih _ (fun n2 hn2 => hnq n2 (List.mem_cons_of_mem m hn2)) n h2

theorem amem_map_pair {α β γ : Type} [DecidableEq α]
    (l : List (α × β)) (f : α × β → γ) (k : α) :
    amem (l.map (fun p => (p.1, f p))) k = amem l k := by
  induction l with
  | nil => rfl
  | cons p t ih =>
      simp only [List.map_cons, amem, List.any_cons] at ih ⊢
      rw [ih]

theorem alookup_pair_map_mem (l : List EP) (k : Option Int)
    (hmem : k ∈ l.map EP.nodeid) :
    ∃ e, alookup (l.map (fun e => (e.nodeid, e))) k = some e ∧
      e.nodeid = k ∧ e ∈ l := by
  induction l with
  | nil => cases hmem
  | cons e t ih =>
      by_cases he : e.nodeid = k
      · exact ⟨e, by simp [alookup, he], he, List.mem_cons_self e t⟩
      · have h2 : k ∈ t.map EP.nodeid := by
          rcases List.mem_cons.mp hmem with h1 | h1
          · exact absurd h1.symm he
          · exact h1
        obtain ⟨e2, ha, hn, hm⟩ := ih h2
        exact ⟨e2, by simp [alookup, he, ha], hn, List.mem_cons_of_mem e hm⟩

theorem pairs_nodup_snd_eq {α β : Type} (l : List (α × β))
    (hnd : (l.map Prod.fst).Nodup) (a : α) (b c : β)
    (h1 : (a, b) ∈ l) (h2 : (a, c) ∈ l) : b = c := by
  induction l with
  | nil => cases h1
  | cons p t ih =>
      have hnd2 := List.nodup_cons.mp hnd
      rcases List.mem_cons.mp h1 with he1 | hm1
      · rcases List.mem_cons.mp h2 with he2 | hm2
        · rw [← he1] at he2
          exact (Prod.mk.injEq _ _ _ _ |>.mp he2.symm).2
        · exfalso
          apply hnd2.1
          have : p.1 = a := by rw [← he1]
          rw [this]
          exact List.mem_map.mpr ⟨(a, c), hm2, rfl⟩
      · rcases List.mem_cons.mp h2 with he2 | hm2
        · exfalso
          apply hnd2.1
          have : p.1 = a := by rw [← he2]
          rw [this]
          exact List.mem_map.mpr ⟨(a, b), hm1, rfl⟩
        · exact ih hnd2.2 hm1 hm2

theorem dmrsNodeFold_char (labels : List (Int × String)) (nodes : List DNode) :
    ∀ (args : List (Int × List (String × String))) (acc : List EP),
    (∀ node ∈ nodes, amem labels node.nodeid = true) →
    (∀ node ∈ nodes, amem args node.nodeid = true) →
    ∃ fin, nodes.foldlM (dmrsNodeStep labels) (args, acc) = .ok fin ∧
      fin.2.map (fun e => (e.nodeid, e.label)) =
        acc.map (fun e => (e.nodeid, e.label)) ++
        nodes.map (fun node => (some node.nodeid, alookup labels node.nodeid)) := by
  induction nodes with
  | nil =>
      intro args acc _ _
      exact ⟨(args, acc), rfl, by simp⟩
  | cons node t ih =>
      intro args acc hlab hargs
      obtain ⟨lblv, hlblv⟩ := alookup_some_of_amem labels node.nodeid
        (hlab node (List.mem_cons_self node t))
      have hargmem : amem args node.nodeid = true :=
        hargs node (List.mem_cons_self node t)
      obtain ⟨m0, hm0⟩ := alookup_some_of_amem args node.nodeid hargmem
      -- the carg branch either keeps args or asets the node's own key
      have hstep : ∃ args2, dmrsNodeStep labels (args, acc) node =
          .ok (args2, acc ++
            [⟨some node.nodeid, node.pred, some lblv,
              ((alookup args2 node.nodeid).getD []),
              node.lnk, node.surface, node.base⟩]) ∧
          (∀ k, amem args k = true → amem args2 k = true) := by
        unfold dmrsNodeStep
        cases hc : node.carg with
        | none =>
            simp only [hlblv]
            obtain ⟨m1, hm1⟩ := alookup_some_of_amem args node.nodeid hargmem
            rw [hm1]
            exact ⟨args, by simp [hm1], fun k hk => hk⟩
        | some c =>
            rw [hm0]
            simp only [hlblv]
            have hmem2 : amem (aset args node.nodeid (aset m0 CONSTARG_ROLE c))
                node.nodeid = true := amem_aset_self _ _ _
            obtain ⟨m2, hm2⟩ := alookup_some_of_amem _ node.nodeid hmem2
            rw [hm2]
            refine ⟨aset args node.nodeid (aset m0 CONSTARG_ROLE c),
              by simp [hm2], fun k hk => amem_aset_mono _ _ _ _ hk⟩
      obtain ⟨args2, hstep2, hmono⟩ := hstep
      obtain ⟨fin, hfin, hmap⟩ := ih args2
        (acc ++ [⟨some node.nodeid, node.pred, some lblv,
          ((alookup args2 node.nodeid).getD []),
          node.lnk, node.surface, node.base⟩])
        (fun n2 hn2 => hlab n2 (List.mem_cons_of_mem node hn2))
        (fun n2 hn2 => hmono n2.nodeid (hargs n2 (List.mem_cons_of_mem node hn2)))
      refine ⟨fin, ?_, ?_⟩
      · simp only [List.foldlM]
        rw [hstep2, except_bind_ok]
        exact hfin
      · rw [hmap]
        simp only [List.map_append, List.map_cons, List.map_nil]
        rw [hlblv]
        simp

theorem amem_append_left {α β : Type} [DecidableEq α]
    (l m : List (α × β)) (k : α) (h : amem l k = true) :
    amem (l ++ m) k = true := by
  simp only [amem, List.any_append, Bool.or_eq_true]
  exact Or.inl h

theorem foldlM_single_except {σ α : Type} (f : σ → α → Except PyErr σ)
    (s : σ) (a : α) : [a].foldlM f s = f s a := by
  cases h : f s a <;> simp [List.foldlM, h, except_bind_error, except_bind_ok]

theorem vg_reset_new_h0 (vg : VarGenerator) :
    (({ vg with vid := 0 } : VarGenerator).new HANDLESORT []).1 = "h0" := by
  show HANDLESORT ++ toString (0 : Nat) = "h0"
  decide

theorem make_labels_topH (nodes : List DNode) (n1id : Int) (r : Option String)
    (vg : VarGenerator) :
    make_labels nodes [⟨0, n1id, r, "H"⟩] vg =
      (((0 :: nodes.map (·.nodeid)).foldl (labelAssignStep [])
          ([], [], { vg with vid := 0 })).1,
       ((0 :: nodes.map (·.nodeid)).foldl (labelAssignStep [])
          ([], [], { vg with vid := 0 })).2.2) := by
  unfold make_labels
  simp [labelLinkStep, EQ_POST, LTOP_NODEID]

theorem labelsF_at_top (ids : List Int) (vg : VarGenerator) :
    alookup ((0 :: ids).foldl (labelAssignStep [])
      ([], [], { vg with vid := 0 })).1 (0 : Int) = some "h0" := by
  have hstep : (labelAssignStep [] ([], [], { vg with vid := 0 }) 0) =
      (aset [] 0 (({ vg with vid := 0 } : VarGenerator).new HANDLESORT []).1,
       [(0 : Int)],
       (({ vg with vid := 0 } : VarGenerator).new HANDLESORT []).2) := by
    rw [labelAssignStep_empty]
    rfl
  show alookup ((ids).foldl (labelAssignStep [])
      (labelAssignStep [] ([], [], { vg with vid := 0 }) 0)).1 (0 : Int)
    = some "h0"
  rw [hstep]
  rw [labelFold_preserve ids _ 0
    (by show ([(0 : Int)] : List Int).contains 0 = true; decide)]
  rw [vg_reset_new_h0]
  rfl

theorem labelsF_mem (ids : List Int) (vg : VarGenerator) :
    ∀ nid ∈ ids, amem ((0 :: ids).foldl (labelAssignStep [])
      ([], [], { vg with vid := 0 })).1 nid = true := by
  intro nid hm
  have hstep : (labelAssignStep [] ([], [], { vg with vid := 0 }) 0) =
      (aset [] 0 (({ vg with vid := 0 } : VarGenerator).new HANDLESORT []).1,
       [(0 : Int)],
       (({ vg with vid := 0 } : VarGenerator).new HANDLESORT []).2) := by
    rw [labelAssignStep_empty]
    rfl
  show amem ((ids).foldl (labelAssignStep [])
      (labelAssignStep [] ([], [], { vg with vid := 0 }) 0)).1 nid = true
  rw [hstep]
  refine labelFold_mem ids _ ?_ nid hm
  intro s hs
  have hs2 : s ∈ ([(0 : Int)] : List Int) := List.elem_iff.mp hs
  simp at hs2
  subst hs2
  exact amem_aset_self _ _ _

theorem dmrsLinkStep_topH (labels : List (Int × String)) (st0 : DmrsSt)
    (n1id : Int) (r : Option String) (topv lo : String)
    (h0 : alookup labels LTOP_NODEID = some topv)
    (h1 : alookup labels n1id = some lo) :
    dmrsLinkStep labels st0 ⟨0, n1id, r, "H"⟩ =
      .ok ⟨some topv,
           (if amem st0.args 0 then st0.args else st0.args ++ [(0, [])]),
           st0.hcons ++ [(topv, "qeq", lo)], st0.ivs, st0.vg⟩ := by
  unfold dmrsLinkStep
  have e0 : alookup labels (0 : Int) = some topv := h0
  simp [LTOP_NODEID, H_POST, NIL_POST, e0, h1]

theorem amem_vivify (args : List (Int × List (String × String)))
    (k0 k : Int) (h : amem args k = true) :
    amem (if amem args k0 then args else args ++ [(k0, [])]) k = true := by
  by_cases hc : amem args k0
  · simp only [hc, if_true]
    exact h
  · simp only [hc, Bool.false_eq_true, if_false]
    exact amem_append_left _ _ _ h

theorem alookup_aset_self {α β : Type} [DecidableEq α] (l : List (α × β))
    (a : α) (b : β) : alookup (aset l a b) a = some b := by
  induction l with
  | nil => simp [aset, alookup]
  | cons p rest ih =>
      by_cases hp : p.1 = a
      · obtain ⟨pk, pv⟩ := p
        simp only at hp
        subst hp
        simp [aset, alookup]
      · obtain ⟨pk, pv⟩ := p
        simp only at hp
        simp [aset, alookup, hp, ih]

theorem toDigitsCore_length_le (f : Nat) : ∀ (n : Nat) (ds : List Char),
    ds.length ≤ (Nat.toDigitsCore 10 f n ds).length := by
  induction f with
  | zero => intro n ds; simp [Nat.toDigitsCore]
  | succ f ih =>
      intro n ds
      simp only [Nat.toDigitsCore]
      by_cases h : n / 10 = 0
      · simp [h]
      · simp only [h, if_false]
        exact le_trans (by simp) (ih (n / 10) (Nat.digitChar (n % 10) :: ds))

theorem toDigitsCore_length_lt (f n : Nat) (ds : List Char) (hf : 1 ≤ f) :
    ds.length + 1 ≤ (Nat.toDigitsCore 10 f n ds).length := by
  cases f with
  | zero => omega
  | succ f =>
      simp only [Nat.toDigitsCore]
      by_cases h : n / 10 = 0
      · simp [h]
      · simp only [h, if_false]
        have := toDigitsCore_length_le f (n / 10)
          (Nat.digitChar (n % 10) :: ds)
        simpa using this

theorem repr_pos_ne_zero (n : Nat) (h : 1 ≤ n) : Nat.repr n ≠ "0" := by
  intro he
  have hdata : Nat.toDigits 10 n = List.cons (Char.ofNat 48) List.nil := by
    have h2 := congrArg String.data he
    simpa [Nat.repr, List.asString] using h2
  unfold Nat.toDigits at hdata
  by_cases h10 : n / 10 = 0
  · have hone : Nat.toDigitsCore 10 (n + 1) n [] =
        [Nat.digitChar (n % 10)] := by
      simp [Nat.toDigitsCore, h10]
    rw [hone] at hdata
    have hn10 : n < 10 := by
      rcases Nat.lt_or_ge n 10 with h3 | h3
      · exact h3
      · exact absurd h10 (by
          have : 1 ≤ n / 10 := Nat.le_div_iff_mul_le (by omega) |>.mpr (by omega)
          omega)
    have hmod : n % 10 = n := Nat.mod_eq_of_lt hn10
    rw [hmod] at hdata
    interval_cases n <;> revert hdata <;> decide
  · have hrec : Nat.toDigitsCore 10 (n + 1) n [] =
        Nat.toDigitsCore 10 n (n / 10) [Nat.digitChar (n % 10)] := by
      simp [Nat.toDigitsCore, h10]
    rw [hrec] at hdata
    have hlen := toDigitsCore_length_lt n (n / 10)
      [Nat.digitChar (n % 10)] h
    rw [hdata] at hlen
    simp at hlen

theorem handle_toString_ne_h0 (k : Nat) (hk : 1 ≤ k) :
    HANDLESORT ++ toString k ≠ "h0" := by
  intro he
  have hd : (HANDLESORT ++ toString k).data = ("h0" : String).data :=
    congrArg String.data he
  rw [String.data_append] at hd
  have hk0 : (toString k).data = (("0" : String)).data := by
    have hH : (HANDLESORT : String).data = ("h" : String).data := rfl
    rw [hH] at hd
    simpa using hd
  exact repr_pos_ne_zero k hk (String.ext hk0)

theorem labelFold_ne_h0 (nids : List Int)
    (st2 : List (Int × String) × List Int × VarGenerator)
    (hvid : 1 ≤ st2.2.2.vid)
    (hinv : ∀ k v, alookup st2.1 k = some v → v ≠ "h0" ∨ k = 0) :
    ∀ k v, alookup ((nids.foldl (labelAssignStep []) st2)).1 k = some v →
      v ≠ "h0" ∨ k = 0 := by
  induction nids generalizing st2 with
  | nil => exact hinv
  | cons n t ih =>
      simp only [List.foldl, labelAssignStep_empty]
      by_cases hc : st2.2.1.contains n
      · simp only [hc, if_true]
        exact ih st2 hvid hinv
      · simp only [hc, Bool.false_eq_true, if_false]
        refine ih _ ?_ ?_
        · show 1 ≤ st2.2.2.vid + 1
          omega
        · intro k v hkv
          by_cases hkn : n = k
          · subst hkn
            rw [alookup_aset_self] at hkv
            have hv : v = HANDLESORT ++ toString st2.2.2.vid :=
              (Option.some.inj hkv).symm
            left
            rw [hv]
            exact handle_toString_ne_h0 _ hvid
          · rw [alookup_aset_ne _ _ _ _ hkn] at hkv
            exact hinv k v hkv

theorem labelsF_ne_h0 (ids : List Int) (vg : VarGenerator) (nid : Int)
    (hn : nid ≠ 0) (v : String)
    (h : alookup ((0 :: ids).foldl (labelAssignStep [])
      ([], [], { vg with vid := 0 })).1 nid = some v) : v ≠ "h0" := by
  have hstep : (labelAssignStep [] ([], [], { vg with vid := 0 }) 0) =
      (aset [] 0 (({ vg with vid := 0 } : VarGenerator).new HANDLESORT []).1,
       [(0 : Int)],
       (({ vg with vid := 0 } : VarGenerator).new HANDLESORT []).2) := by
    rw [labelAssignStep_empty]
    rfl
  rw [show ((0 :: ids).foldl (labelAssignStep [])
      ([], [], { vg with vid := 0 })) =
      (ids.foldl (labelAssignStep [])
        (labelAssignStep [] ([], [], { vg with vid := 0 }) 0)) from rfl,
    hstep] at h
  have hres := labelFold_ne_h0 ids _ (by show 1 ≤ 0 + 1; omega)
    (by
      intro k v2 hkv
      by_cases hk0 : k = 0
      · exact Or.inr hk0
      · exfalso
        have hk0s : ¬ (0 : Int) = k := fun he => hk0 he.symm
        have : alookup (aset ([] : List (Int × String)) 0
            (({ vg with vid := 0 } : VarGenerator).new HANDLESORT []).1) k
            = none := by
          simp [aset, alookup, hk0s]
        rw [this] at hkv
        cases hkv)
    nid v h
  rcases hres with h2 | h2
  · exact h2
  · exact absurd h2 hn

/-- C2 amended: for a DMRS whose only link goes from the reserved top id 0
to node N1 with post tag handle (and no node reuses the reserved id 0),
the graph's top is the freshly minted first handle h0, which is distinct
from N1's synthesized label and from every node's label (node labels are
minted with counters at least 1), and exactly one qeq handle constraint
exists, from that top handle to N1's label. -/
theorem c2_amended_top_link (nodes : List DNode) (n1 : DNode)
    (r : Option String)
    (hmem : n1 ∈ nodes)
    (hnodup : (nodes.map DNode.nodeid).Nodup)
    (h0notin : (0 : Int) ∉ nodes.map DNode.nodeid)
    (hnq : ∀ n ∈ nodes, predIsQuantifier n.pred = false) :
    ∃ g lbl ep,
      Dmrs nodes [⟨0, n1.nodeid, r, "H"⟩] none none none = .ok g ∧
      g.top = some "h0" ∧
      g.hcons = [("h0", "qeq", lbl)] ∧
      alookup g.eps (some n1.nodeid) = some ep ∧ ep.label = some lbl ∧
      lbl ≠ "h0" ∧
      ∀ p ∈ g.eps, p.2.label ≠ some "h0" := by
  obtain ⟨lblN1, hlblN1⟩ : ∃ lbl, alookup
      ((make_labels nodes [⟨0, n1.nodeid, r, "H"⟩] VarGenerator.init).1)
      n1.nodeid = some lbl := by
    rw [make_labels_topH]
    exact alookup_some_of_amem _ _
      (labelsF_mem (nodes.map (·.nodeid)) VarGenerator.init n1.nodeid
        (List.mem_map.mpr ⟨n1, hmem, rfl⟩))
  have hlab0 : alookup
      ((make_labels nodes [⟨0, n1.nodeid, r, "H"⟩] VarGenerator.init).1)
      LTOP_NODEID = some "h0" := by
    show alookup
      ((make_labels nodes [⟨0, n1.nodeid, r, "H"⟩] VarGenerator.init).1)
      (0 : Int) = some "h0"
    rw [make_labels_topH]
    exact labelsF_at_top _ _
  have hlabmem : ∀ node ∈ nodes, amem
      ((make_labels nodes [⟨0, n1.nodeid, r, "H"⟩] VarGenerator.init).1)
      node.nodeid = true := by
    intro node hn
    rw [make_labels_topH]
    exact labelsF_mem _ _ _ (List.mem_map.mpr ⟨node, hn, rfl⟩)
  have hivsmem : ∀ node ∈ nodes, amem
      (make_ivs nodes (make_labels nodes [⟨0, n1.nodeid, r, "H"⟩]
        VarGenerator.init).2).1 node.nodeid = true := by
    intro node hn
    exact makeIvsFold_mem nodes _ hnq node hn
  have hargs0 : ∀ node ∈ nodes, amem
      ((make_ivs nodes (make_labels nodes [⟨0, n1.nodeid, r, "H"⟩]
        VarGenerator.init).2).1.map
        (fun p => (p.1, [(IVARG_ROLE, p.2)]))) node.nodeid = true := by
    intro node hn
    rw [amem_map_pair]
    exact hivsmem node hn
  have hlink : [(⟨0, n1.nodeid, r, "H"⟩ : DLink)].foldlM
      (dmrsLinkStep
        (make_labels nodes [⟨0, n1.nodeid, r, "H"⟩] VarGenerator.init).1)
      ⟨none,
       ((make_ivs nodes (make_labels nodes [⟨0, n1.nodeid, r, "H"⟩]
         VarGenerator.init).2).1.map
         (fun p => (p.1, [(IVARG_ROLE, p.2)]))), [],
       (make_ivs nodes (make_labels nodes [⟨0, n1.nodeid, r, "H"⟩]
         VarGenerator.init).2).1,
       (make_ivs nodes (make_labels nodes [⟨0, n1.nodeid, r, "H"⟩]
         VarGenerator.init).2).2⟩ =
      .ok ⟨some "h0",
        (if amem ((make_ivs nodes (make_labels nodes [⟨0, n1.nodeid, r, "H"⟩]
            VarGenerator.init).2).1.map
            (fun p => (p.1, [(IVARG_ROLE, p.2)]))) (0 : Int) then
          ((make_ivs nodes (make_labels nodes [⟨0, n1.nodeid, r, "H"⟩]
            VarGenerator.init).2).1.map
            (fun p => (p.1, [(IVARG_ROLE, p.2)])))
        else
          ((make_ivs nodes (make_labels nodes [⟨0, n1.nodeid, r, "H"⟩]
            VarGenerator.init).2).1.map
            (fun p => (p.1, [(IVARG_ROLE, p.2)]))) ++ [((0 : Int), [])]),
        [] ++ [("h0", "qeq", lblN1)],
        (make_ivs nodes (make_labels nodes [⟨0, n1.nodeid, r, "H"⟩]
          VarGenerator.init).2).1,
        (make_ivs nodes (make_labels nodes [⟨0, n1.nodeid, r, "H"⟩]
          VarGenerator.init).2).2⟩ := by
    rw [foldlM_single_except]
    exact dmrsLinkStep_topH _ _ n1.nodeid r "h0" lblN1 hlab0 hlblN1
  have hargsA1 : ∀ node ∈ nodes, amem
      (if amem ((make_ivs nodes (make_labels nodes [⟨0, n1.nodeid, r, "H"⟩]
          VarGenerator.init).2).1.map
          (fun p => (p.1, [(IVARG_ROLE, p.2)]))) (0 : Int) then
        ((make_ivs nodes (make_labels nodes [⟨0, n1.nodeid, r, "H"⟩]
          VarGenerator.init).2).1.map
          (fun p => (p.1, [(IVARG_ROLE, p.2)])))
      else
        ((make_ivs nodes (make_labels nodes [⟨0, n1.nodeid, r, "H"⟩]
          VarGenerator.init).2).1.map
          (fun p => (p.1, [(IVARG_ROLE, p.2)]))) ++ [((0 : Int), [])])
      node.nodeid = true := by
    intro node hn
    exact amem_vivify _ 0 node.nodeid (hargs0 node hn)
  obtain ⟨fin, hfin, hmap⟩ := dmrsNodeFold_char
    (make_labels nodes [⟨0, n1.nodeid, r, "H"⟩] VarGenerator.init).1 nodes
    (if amem ((make_ivs nodes (make_labels nodes [⟨0, n1.nodeid, r, "H"⟩]
        VarGenerator.init).2).1.map
        (fun p => (p.1, [(IVARG_ROLE, p.2)]))) (0 : Int) then
      ((make_ivs nodes (make_labels nodes [⟨0, n1.nodeid, r, "H"⟩]
        VarGenerator.init).2).1.map
        (fun p => (p.1, [(IVARG_ROLE, p.2)])))
    else
      ((make_ivs nodes (make_labels nodes [⟨0, n1.nodeid, r, "H"⟩]
        VarGenerator.init).2).1.map
        (fun p => (p.1, [(IVARG_ROLE, p.2)]))) ++ [((0 : Int), [])])
    [] hlabmem hargsA1
  have hmap2 : fin.2.map (fun e => (e.nodeid, e.label)) =
      nodes.map (fun node => (some node.nodeid,
        alookup (make_labels nodes [⟨0, n1.nodeid, r, "H"⟩]
          VarGenerator.init).1 node.nodeid)) := by
    rw [hmap]
    simp
  have hids : fin.2.map EP.nodeid = nodes.map (fun n => some n.nodeid) := by
    have hcg := congrArg (List.map Prod.fst) hmap2
    simp only [List.map_map] at hcg
    have hl : (Prod.fst ∘ fun e : EP => (e.nodeid, e.label)) = EP.nodeid := by
      funext e
      rfl
    rw [hl] at hcg
    rw [hcg]
    rfl
  have hnd : (fin.2.map EP.nodeid).Nodup := by
    rw [hids]
    have heq2 : nodes.map (fun n => some n.nodeid) =
        (nodes.map DNode.nodeid).map some := by
      rw [List.map_map]
      rfl
    rw [heq2]
    exact hnodup.map (fun a b h2 => Option.some.inj h2)
  obtain ⟨g, hg⟩ := mkXmrs_ok_exists (some "h0") none none fin.2
    ([] ++ [("h0", "qeq", lblN1)])
    ((make_ivs nodes (make_labels nodes [⟨0, n1.nodeid, r, "H"⟩]
      VarGenerator.init).2).2.store.map
      (fun p => (p.1, p.2.map (fun kv => (kv.1, PropV.s kv.2)))))
    none none none hnd (by simp)
  have hdmrs : Dmrs nodes [⟨0, n1.nodeid, r, "H"⟩] none none none
      = .ok g := by
    unfold Dmrs dmrsBuild
    rw [hlink, except_bind_ok2]
    rw [hfin, except_bind_ok2]
    exact hg
  obtain ⟨hgt, hgi, hgx, hgn, hge, hgh, hgic, hgl, hgs, hgid, -, -⟩ :=
    mkXmrs_ok_char (some "h0") none none fin.2 ([] ++ [("h0", "qeq", lblN1)])
      _ none none none g hg
  have hmemk : (some n1.nodeid) ∈ fin.2.map EP.nodeid := by
    rw [hids]
    exact List.mem_map.mpr ⟨n1, hmem, rfl⟩
  obtain ⟨ep, hep, hepnid, hepmem⟩ :=
    alookup_pair_map_mem fin.2 (some n1.nodeid) hmemk
  have hpair1 : ((some n1.nodeid : Option Int), ep.label) ∈
      nodes.map (fun node => (some node.nodeid,
        alookup (make_labels nodes [⟨0, n1.nodeid, r, "H"⟩]
          VarGenerator.init).1 node.nodeid)) := by
    rw [← hmap2]
    rw [← hepnid]
    exact List.mem_map.mpr ⟨ep, hepmem, rfl⟩
  have hpair2 : ((some n1.nodeid : Option Int),
      alookup (make_labels nodes [⟨0, n1.nodeid, r, "H"⟩]
        VarGenerator.init).1 n1.nodeid) ∈
      nodes.map (fun node => (some node.nodeid,
        alookup (make_labels nodes [⟨0, n1.nodeid, r, "H"⟩]
          VarGenerator.init).1 node.nodeid)) :=
    List.mem_map.mpr ⟨n1, hmem, rfl⟩
  have hfstnd : ((nodes.map (fun node => ((some node.nodeid : Option Int),
      alookup (make_labels nodes [⟨0, n1.nodeid, r, "H"⟩]
        VarGenerator.init).1 node.nodeid))).map Prod.fst).Nodup := by
    rw [List.map_map]
    have hl2 : (Prod.fst ∘ fun node : DNode => ((some node.nodeid : Option Int),
        alookup (make_labels nodes [⟨0, n1.nodeid, r, "H"⟩]
          VarGenerator.init).1 node.nodeid)) =
        (fun node : DNode => (some node.nodeid : Option Int)) := by
      funext node
      rfl
    rw [hl2]
    have heq2 : nodes.map (fun n : DNode => (some n.nodeid : Option Int)) =
        (nodes.map DNode.nodeid).map some := by
      rw [List.map_map]
      rfl
    rw [heq2]
    exact hnodup.map (fun a b h2 => Option.some.inj h2)
  have heplbl : ep.label = alookup (make_labels nodes
      [⟨0, n1.nodeid, r, "H"⟩] VarGenerator.init).1 n1.nodeid :=
    pairs_nodup_snd_eq _ hfstnd (some n1.nodeid) _ _ hpair1 hpair2
  have hne1 : n1.nodeid ≠ 0 := fun he =>
    h0notin (he ▸ List.mem_map.mpr ⟨n1, hmem, rfl⟩)
  have hlblne : lblN1 ≠ "h0" := by
    have h2 := hlblN1
    rw [make_labels_topH] at h2
    exact labelsF_ne_h0 (nodes.map (·.nodeid)) VarGenerator.init n1.nodeid
      hne1 lblN1 h2
  refine ⟨g, lblN1, ep, hdmrs, hgt, by simpa using hgh, ?_, ?_, hlblne, ?_⟩
  · rw [hge]
    exact hep
  · rw [heplbl, hlblN1]
  · intro p hp
    rw [hge] at hp
    obtain ⟨e, hemem, rfl⟩ := List.mem_map.mp hp
    have hpair : (e.nodeid, e.label) ∈
        fin.2.map (fun e2 => (e2.nodeid, e2.label)) :=
      List.mem_map.mpr ⟨e, hemem, rfl⟩
    rw [hmap2] at hpair
    obtain ⟨node, hnode, heq⟩ := List.mem_map.mp hpair
    have hlbl : e.label = alookup
        ((make_labels nodes [⟨0, n1.nodeid, r, "H"⟩] VarGenerator.init).1)
        node.nodeid := (congrArg Prod.snd heq).symm
    have hnn : node.nodeid ≠ 0 := fun he2 =>
      h0notin (he2 ▸ List.mem_map.mpr ⟨node, hnode, rfl⟩)
    intro hcon
    have h3 : alookup
        ((make_labels nodes [⟨0, n1.nodeid, r, "H"⟩] VarGenerator.init).1)
        node.nodeid = some "h0" := by
      rw [← hlbl]
      exact hcon
    rw [make_labels_topH] at h3
    exact labelsF_ne_h0 (nodes.map (·.nodeid)) VarGenerator.init node.nodeid
      hnn "h0" h3 rfl

/-- C2 counterexample: for the single-node graph with one link from the
reserved top id 0 to node 10000 with post tag handle, the spec says the
graph's top is N1's label; in fact top is the freshly minted handle h0,
the node's label is the distinct handle h1, and a qeq relates them. -/
theorem c2_counterexample_top_is_new_handle :
    ((Dmrs [⟨10000, "_rain_v_1_rel", [("cvarsort", "e")], none, none, none,
        none⟩] [⟨0, 10000, none, "H"⟩] none none none).map
      (fun g => (g.top, (alookup g.eps (some 10000)).map (fun e => e.label),
        g.hcons)) =
      .ok (some "h0", some (some "h1"), [("h0", "qeq", "h1")])) ∧
    ("h0" : String) ≠ "h1" := by
  refine ⟨rfl, ?_⟩
  decide

def c2node : DNode :=
  ⟨10000, "_rain_v_1_rel", [("cvarsort", "e")], none, none, none, none⟩

theorem c2_witness :
    c2node ∈ [c2node] ∧
    (([c2node] : List DNode).map DNode.nodeid).Nodup ∧
    (0 : Int) ∉ ([c2node] : List DNode).map DNode.nodeid ∧
    (∀ n ∈ ([c2node] : List DNode), predIsQuantifier n.pred = false) ∧
    ∃ g lbl ep,
      Dmrs [c2node] [⟨0, c2node.nodeid, none, "H"⟩] none none none = .ok g ∧
      g.top = some "h0" ∧
      g.hcons = [("h0", "qeq", lbl)] ∧
      alookup g.eps (some c2node.nodeid) = some ep ∧ ep.label = some lbl ∧
      lbl ≠ "h0" ∧
      ∀ p ∈ g.eps, p.2.label ≠ some "h0" :=
  ⟨by decide, by decide, by decide, by decide,
    c2_amended_top_link [c2node] c2node none (by decide) (by decide)
      (by decide) (by decide)⟩

theorem amem_of_alookup {α β : Type} [DecidableEq α]
    (l : List (α × β)) (a : α) (b : β) (h : alookup l a = some b) :
    amem l a = true := by
  induction l with
  | nil => simp [alookup] at h
  | cons p rest ih =>
      simp only [alookup] at h
      by_cases hc : p.1 = a
      · simp [amem, List.any_cons, hc]
      · rw [if_neg hc] at h
        have h2 := ih h
        simp only [amem, List.any_cons] at h2 ⊢
        simp [h2]

theorem countP_ext {α : Type} (p q : α → Bool) (l : List α)
    (h : ∀ a, p a = q a) : l.countP p = l.countP q := by
  induction l with
  | nil => rfl
  | cons a rest ih => simp [List.countP_cons, h, ih]

theorem amem3_perm_bac {β : Type} (a b c : String) (x y z : β) (k : String) :
    amem [(b, y), (a, x), (c, z)] k = amem [(a, x), (b, y), (c, z)] k := by
  simp only [amem, List.any_cons, List.any_nil, Bool.or_false]
  cases hb : decide (b = k) <;> cases ha : decide (a = k) <;>
    cases hc : decide (c = k) <;> simp [ha, hb, hc]

theorem amem3_perm_bca {β : Type} (a b c : String) (x y z : β) (k : String) :
    amem [(b, y), (c, z), (a, x)] k = amem [(a, x), (b, y), (c, z)] k := by
  simp only [amem, List.any_cons, List.any_nil, Bool.or_false]
  cases hb : decide (b = k) <;> cases ha : decide (a = k) <;>
    cases hc : decide (c = k) <;> simp [ha, hb, hc]

theorem countP_amem3_bac {β : Type} (args : List (String × String))
    (a b c : String) (x y z : β) :
    args.countP (fun rv => amem [(b, y), (a, x), (c, z)] rv.2) =
    args.countP (fun rv => amem [(a, x), (b, y), (c, z)] rv.2) :=
  countP_ext _ _ _ (fun rv => amem3_perm_bac a b c x y z rv.2)

theorem countP_amem3_bca {β : Type} (args : List (String × String))
    (a b c : String) (x y z : β) :
    args.countP (fun rv => amem [(b, y), (c, z), (a, x)] rv.2) =
    args.countP (fun rv => amem [(a, x), (b, y), (c, z)] rv.2) :=
  countP_ext _ _ _ (fun rv => amem3_perm_bca a b c x y z rv.2)

/-- C6: on a label shared by exactly three EPs where EP-A's arguments
target an in-labelset intrinsic variable only through its own intrinsic
role, while EP-B and EP-C each have one further such argument,
labelset_heads returns EP-A first (indeed alone: the intrinsic-variable
argument itself is counted, so B and C have out-degree 2 and are dropped
by the at-most-one filter).  The labelset may list EP-A at any position;
EP-B and EP-C are interchangeable, so three orders cover all six. -/
theorem c6_labelset_heads_ranks_A_first (x : Xmrs) (label : String)
    (nA nB nC : Option Int) (epA epB epC : EP) (ivA ivB ivC : String)
    (entA : VarEntry) (qq : Option (Option Int))
    (hrefs : x.refsFor label "LBL" = [nA, nB, nC] ∨
      x.refsFor label "LBL" = [nB, nA, nC] ∨
      x.refsFor label "LBL" = [nB, nC, nA])
    (hab : nA ≠ nB) (hac : nA ≠ nC) (hbc : nB ≠ nC)
    (hA : x.epGet nA = .ok epA) (hB : x.epGet nB = .ok epB)
    (hC : x.epGet nC = .ok epC)
    (hivA : alookup epA.args IVARG_ROLE = some ivA)
    (hivB : alookup epB.args IVARG_ROLE = some ivB)
    (hivC : alookup epC.args IVARG_ROLE = some ivC)
    (iab : ivA ≠ ivB) (iac : ivA ≠ ivC) (ibc : ivB ≠ ivC)
    (hcA : epA.args.countP
      (fun rv => amem [(ivA, nA), (ivB, nB), (ivC, nC)] rv.2) = 1)
    (hcB : epB.args.countP
      (fun rv => amem [(ivA, nA), (ivB, nB), (ivC, nC)] rv.2) = 2)
    (hcC : epC.args.countP
      (fun rv => amem [(ivA, nA), (ivB, nB), (ivC, nC)] rv.2) = 2)
    (hEnt : alookup x.vars ivA = some entA)
    (hq : x.nodeid1 ivA (some true) = .ok qq) :
    x.labelset_heads label = .ok [nA] := by
  have hknown : amem x.vars ivA = true := amem_of_alookup _ _ _ hEnt
  have hba := Ne.symm hab
  have hca := Ne.symm hac
  have hcb := Ne.symm hbc
  have iba := Ne.symm iab
  have ica := Ne.symm iac
  have icb := Ne.symm ibc
  rcases hrefs with hrefs | hrefs | hrefs
  · simp [Xmrs.labelset_heads, hrefs, hA, hB, hC, hivA, hivB, hivC,
      hab, hac, hbc, iab, iac, ibc, hba, hca, hcb, iba, ica, icb,
      aset, alookup, hEnt, hq, hknown,
      except_bind_ok, List.foldlM, hcA, hcB, hcC, pySorted, sinsert]
  · simp [Xmrs.labelset_heads, hrefs, hA, hB, hC, hivA, hivB, hivC,
      hab, hac, hbc, iab, iac, ibc, hba, hca, hcb, iba, ica, icb,
      aset, alookup, hEnt, hq, hknown, countP_amem3_bac,
      except_bind_ok, List.foldlM, hcA, hcB, hcC, pySorted, sinsert]
  · simp [Xmrs.labelset_heads, hrefs, hA, hB, hC, hivA, hivB, hivC,
      hab, hac, hbc, iab, iac, ibc, hba, hca, hcb, iba, ica, icb,
      aset, alookup, hEnt, hq, hknown, countP_amem3_bca,
      except_bind_ok, List.foldlM, hcA, hcB, hcC, pySorted, sinsert]

def gC6 : Xmrs :=
  match Mrs (some "h0") (some "e2") none
      [⟨some 10, "_dog_n_1", some "h1", [("ARG0", "x1")], none, none, none⟩,
       ⟨some 11, "_big_a_1", some "h1",
         [("ARG0", "e2"), ("ARG1", "x1")], none, none, none⟩,
       ⟨some 12, "_old_a_1", some "h1",
         [("ARG0", "e3"), ("ARG1", "x1")], none, none, none⟩]
      [("h0", "qeq", "h1")] [] none none none [] with
  | .ok g => g
  | .error _ => Xmrs.empty

theorem c6_witness : gC6.labelset_heads "h1" = .ok [some 10] :=
  c6_labelset_heads_ranks_A_first gC6 "h1" (some 10) (some 11) (some 12)
    ⟨some 10, "_dog_n_1", some "h1", [("ARG0", "x1")], none, none, none⟩
    ⟨some 11, "_big_a_1", some "h1",
      [("ARG0", "e2"), ("ARG1", "x1")], none, none, none⟩
    ⟨some 12, "_old_a_1", some "h1",
      [("ARG0", "e3"), ("ARG1", "x1")], none, none, none⟩
    "x1" "e2" "e3"
    ⟨[], [("ARG0", some 10), ("ARG1", some 11), ("ARG1", some 12)], [], []⟩
    none
    (Or.inl rfl) (by decide) (by decide) (by decide) rfl rfl rfl rfl rfl rfl
    (by decide) (by decide) (by decide) (by decide) (by decide) (by decide)
    rfl rfl
